import Mathlib

/-!
Verification of the voxel-grid ray-traversal routines of StaticMapping
(`src/common/math.cc`): `VoxelCasting`, `VoxelCastingBresenham` and
`VoxelCastingDDA`.

Modelling conventions:

* The C++ `float` coordinates are modelled by exact rational scalars `Fp`,
  kept as numerator/denominator pairs of machine-unbounded integers.  All
  operations performed by the source on scalars (add, sub, mul, div,
  comparisons, `std::floor`) are implemented exactly on these fractions, so
  the model realises the real-number semantics of the algorithms; float
  rounding is out of scope.  Every value the source code builds from inputs
  with positive denominators again has a positive denominator, which is the
  regime in which the fraction operations below agree with rational
  arithmetic.
* Voxel indices and the integer rasterisation state are `Int`.
* The `while` loop of `VoxelCasting` is modelled with explicit fuel; the
  function returns `none` when the loop does not finish within the fuel
  (so "the algorithm does not terminate" = `none` for every fuel).
* The fatal `CHECK_EQ` assertions of `VoxelCastingBresenham` and
  `VoxelCastingDDA` are modelled by an `Option` result: `none` means the
  process aborted on the assertion.
* `std::isnan` applied to an already-rounded `int` index (as the source
  does) is always `false`; this is modelled literally by `isnanInt`.
-/

/-- Exact scalar: the fraction `num / den`.  Models a C++ `float` value with
real-number arithmetic. -/
structure Fp where
  num : Int
  den : Int
deriving DecidableEq, Repr

/-- Exact addition of fractions. -/
def Fp.add (a b : Fp) : Fp := ⟨a.num * b.den + b.num * a.den, a.den * b.den⟩

/-- Exact subtraction of fractions. -/
def Fp.sub (a b : Fp) : Fp := ⟨a.num * b.den - b.num * a.den, a.den * b.den⟩

/-- Exact multiplication of fractions. -/
def Fp.mul (a b : Fp) : Fp := ⟨a.num * b.num, a.den * b.den⟩

/-- Exact division of fractions, normalising the sign into the numerator so
that a positive denominator stays positive (the divisor is never zero on any
code path reachable in the source: the traversal only divides by a ray
component whose start and end voxel indices differ). -/
def Fp.div (a b : Fp) : Fp :=
  if 0 ≤ b.num then ⟨a.num * b.den, a.den * b.num⟩
  else ⟨-(a.num * b.den), -(a.den * b.num)⟩

/-- Strict comparison of fractions (valid for positive denominators, which
all reachable values have). -/
def Fp.lt (a b : Fp) : Prop := a.num * b.den < b.num * a.den

/-- Non-strict comparison of fractions. -/
def Fp.le (a b : Fp) : Prop := a.num * b.den ≤ b.num * a.den

/-- `⌊a⌋` for a fraction with positive denominator: `Int` division in Lean
is Euclidean division, which is floor division for a positive divisor. -/
def Fp.floor (a : Fp) : Int := a.num / a.den

/-- Embed an integer as a scalar. -/
def Fp.ofInt (n : Int) : Fp := ⟨n, 1⟩

instance : Add Fp := ⟨Fp.add⟩

instance : Sub Fp := ⟨Fp.sub⟩

instance : Mul Fp := ⟨Fp.mul⟩

instance : Div Fp := ⟨Fp.div⟩

instance : LT Fp := ⟨Fp.lt⟩

instance : LE Fp := ⟨Fp.le⟩

instance : OfNat Fp 0 := ⟨⟨0, 1⟩⟩

instance (a b : Fp) : Decidable (a < b) :=
  inferInstanceAs (Decidable (a.num * b.den < b.num * a.den))

instance (a b : Fp) : Decidable (a ≤ b) :=
  inferInstanceAs (Decidable (a.num * b.den ≤ b.num * a.den))

/-- A positive scalar: models `step_size > 0`. -/
def Fp.Pos (a : Fp) : Prop := 0 < a.num ∧ 0 < a.den

instance (a : Fp) : Decidable (a.Pos) :=
  inferInstanceAs (Decidable (0 < a.num ∧ 0 < a.den))

/-- `FLT_MAX`, the sentinel the source uses for axes that never step:
`(2 - 2⁻²³) · 2¹²⁷`. -/
def fltMax : Fp := ⟨2 ^ 128 - 2 ^ 104, 1⟩

/-- An integer voxel index (`Eigen::Vector3i`). -/
structure V3i where
  x : Int
  y : Int
  z : Int
deriving DecidableEq, Repr

/-- A 3D point with scalar coordinates (`Eigen::Vector3f`). -/
structure V3f where
  x : Fp
  y : Fp
  z : Fp
deriving DecidableEq, Repr

/-- The voxel containing a point: per-axis `floor(coordinate / step_size)`.
This is the index computation shared by all three traversal functions. -/
def voxelIndex (p : V3f) (step_size : Fp) : V3i :=
  ⟨(p.x / step_size).floor, (p.y / step_size).floor, (p.z / step_size).floor⟩

/-- `std::isnan` applied to an `int` argument: the integral overload
converts to `double` and is therefore always `false`.  This is exactly what
the guards of `VoxelCastingBresenham` and `VoxelCastingDDA` evaluate, since
they test the already-rounded indices. -/
def isnanInt (_ : Int) : Bool := false

/-- The voxel-index differences between two endpoints, reduced to the
quantity `max(|dx|, |dy|, |dz|)` that drives the integer rasterisers. -/
def maxAbsDelta (rs re : V3f) (s : Fp) : Int :=
  max (max |(voxelIndex re s).x - (voxelIndex rs s).x|
        |(voxelIndex re s).y - (voxelIndex rs s).y|)
    |(voxelIndex re s).z - (voxelIndex rs s).z|

/-- Two voxel indices within Chebyshev distance 1: every axis moves by at
most one cell. -/
def chebAdj (a b : V3i) : Prop :=
  |b.x - a.x| ≤ 1 ∧ |b.y - a.y| ≤ 1 ∧ |b.z - a.z| ≤ 1

instance (a b : V3i) : Decidable (chebAdj a b) :=
  inferInstanceAs (Decidable (_ ∧ _ ∧ _))

/-- Emit-update iteration skeleton shared by the two integer rasterisers:
emit the current state, update, repeat; `n` updates produce `n + 1` emitted
voxels (the source loops `for(;;){push; if(i--==0) break; update}` resp.
`for i < n {push; update}; push`). -/
def iterPath {A : Type} (f : A → A) (emit : A → V3i) : Nat → A → List V3i
  | 0, a => [emit a]
  | n + 1, a => emit a :: iterPath f emit n (f a)

theorem iterPath_length {A : Type} (f : A → A) (emit : A → V3i) :
    ∀ (n : Nat) (a : A), (iterPath f emit n a).length = n + 1 := by
  intro n
  induction n with
  | zero => intro a; rfl
  | succ n ih => intro a; simp [iterPath, ih]

theorem iterPath_head {A : Type} (f : A → A) (emit : A → V3i) (n : Nat) (a : A) :
    (iterPath f emit n a).head? = some (emit a) := by
  cases n <;> rfl

theorem iterPath_snoc {A : Type} (f : A → A) (emit : A → V3i) :
    ∀ (n : Nat) (a : A),
      iterPath f emit (n + 1) a = iterPath f emit n a ++ [emit (f^[n + 1] a)] := by
  intro n
  induction n with
  | zero => intro a; rfl
  | succ n ih =>
    intro a
    have h1 : iterPath f emit (n + 2) a = emit a :: iterPath f emit (n + 1) (f a) := rfl
    rw [h1, ih (f a)]
    have h2 : f^[n + 1] (f a) = f^[n + 2] a := (Function.iterate_succ_apply f (n + 1) a).symm
    rw [h2]
    rfl

theorem iterPath_getLast {A : Type} (f : A → A) (emit : A → V3i) (n : Nat) (a : A) :
    (iterPath f emit n a).getLast? = some (emit (f^[n] a)) := by
  cases n with
  | zero => rfl
  | succ n => rw [iterPath_snoc, List.getLast?_concat]

theorem iterPath_ne_nil {A : Type} (f : A → A) (emit : A → V3i) (n : Nat) (a : A) :
    iterPath f emit n a ≠ [] := by
  cases n <;> simp [iterPath]

theorem iterPath_chain {A : Type} (f : A → A) (emit : A → V3i)
    (R : V3i → V3i → Prop) (Inv : A → Prop)
    (hf : ∀ a, Inv a → Inv (f a))
    (hR : ∀ a, Inv a → R (emit a) (emit (f a))) :
    ∀ (n : Nat) (a : A), Inv a → List.Chain' R (iterPath f emit n a) := by
  intro n
  induction n with
  | zero => intro a _; simp [iterPath]
  | succ n ih =>
    intro a ha
    have : iterPath f emit (n + 1) a = emit a :: iterPath f emit n (f a) := rfl
    rw [this, List.chain'_cons']
    refine ⟨?_, ih (f a) (hf a ha)⟩
    intro y hy
    rw [iterPath_head] at hy
    cases hy
    exact hR a ha

/-!
`VoxelCastingBresenham` (`src/common/math.cc:134-194`): the 3D Bresenham
line rasteriser.  All three error accumulators start at `dm >> 1`; each
iteration subtracts the axis delta from the axis accumulator and, when the
accumulator goes negative, adds back `dm` and steps that axis index.
-/

/-- Per-axis Bresenham update on a `(coordinate, accumulator)` pair:
`e -= d; if (e < 0) { e += dm; x += s; }`. -/
def bAxis (d dm s : Int) : Int × Int → Int × Int
  | (x, e) => if e - d < 0 then (x + s, e - d + dm) else (x, e - d)

/-- The loop-invariant parameters of `VoxelCastingBresenham`:
per-axis absolute deltas, the dominant delta `dm`, per-axis unit steps. -/
structure BParams where
  dx : Int
  dy : Int
  dz : Int
  dm : Int
  sx : Int
  sy : Int
  sz : Int
deriving DecidableEq, Repr

/-- The mutable loop state of `VoxelCastingBresenham`: the current voxel
`(x0, y0, z0)` and the three error accumulators (which the source stores in
the reused variables `x1, y1, z1`). -/
structure BState where
  x0 : Int
  y0 : Int
  z0 : Int
  ex : Int
  ey : Int
  ez : Int
deriving DecidableEq, Repr

/-- One iteration of the Bresenham loop body after the emit: the three
independent per-axis updates (`x1 -= dx; if (x1 < 0) {x1 += dm; x0 += sx;}`
and likewise for y and z). -/
def bUpdate (p : BParams) (st : BState) : BState :=
  let xa := bAxis p.dx p.dm p.sx (st.x0, st.ex)
  let ya := bAxis p.dy p.dm p.sy (st.y0, st.ey)
  let za := bAxis p.dz p.dm p.sz (st.z0, st.ez)
  ⟨xa.1, ya.1, za.1, xa.2, ya.2, za.2⟩

/-- The voxel emitted by `visited_voxels.emplace_back(x0, y0, z0)`. -/
def bVoxel (st : BState) : V3i := ⟨st.x0, st.y0, st.z0⟩

/-- The parameters `VoxelCastingBresenham` derives from the start and end
voxel indices: `dx = abs(x1-x0)`, `sx = x0 < x1 ? 1 : -1` (same for y, z),
`dm = max({dx, dy, dz})`. -/
def bParamsOf (x0 y0 z0 x1 y1 z1 : Int) : BParams :=
  let dx := |x1 - x0|
  let dy := |y1 - y0|
  let dz := |z1 - z0|
  ⟨dx, dy, dz, max (max dx dy) dz,
    if x0 < x1 then 1 else -1,
    if y0 < y1 then 1 else -1,
    if z0 < z1 then 1 else -1⟩

/-- The initial loop state: current voxel at the start index and all three
accumulators at the error offset `dm >> 1` (floor half, `dm` being
non-negative). -/
def bStart (x0 y0 z0 dm : Int) : BState := ⟨x0, y0, z0, dm / 2, dm / 2, dm / 2⟩

/-- The sequence of voxels `VoxelCastingBresenham` emits: `dm + 1` voxels,
with one `bUpdate` between consecutive emissions. -/
def bresenhamRun (x0 y0 z0 x1 y1 z1 : Int) : List V3i :=
  iterPath (bUpdate (bParamsOf x0 y0 z0 x1 y1 z1)) bVoxel
    (bParamsOf x0 y0 z0 x1 y1 z1).dm.toNat
    (bStart x0 y0 z0 (bParamsOf x0 y0 z0 x1 y1 z1).dm)

/-- The loop state after the final iteration, whose voxel the source checks
against the end index. -/
def bresenhamFinal (x0 y0 z0 x1 y1 z1 : Int) : BState :=
  (bUpdate (bParamsOf x0 y0 z0 x1 y1 z1))^[(bParamsOf x0 y0 z0 x1 y1 z1).dm.toNat]
    (bStart x0 y0 z0 (bParamsOf x0 y0 z0 x1 y1 z1).dm)

/-- The integer part of `VoxelCastingBresenham`, from computed start/end
voxel indices to the returned path.  The three trailing
`CHECK_EQ(x0, x1_init)` fatal assertions are modelled by `none` (process
abort) on mismatch. -/
def bresenhamPath (x0 y0 z0 x1 y1 z1 : Int) : Option (List V3i) :=
  let stN := bresenhamFinal x0 y0 z0 x1 y1 z1
  if stN.x0 = x1 ∧ stN.y0 = y1 ∧ stN.z0 = z1 then
    some (bresenhamRun x0 y0 z0 x1 y1 z1)
  else none

/-- `VoxelCastingBresenham` (`src/common/math.cc:134-194`): round the six
coordinates to voxel indices, run the (never-firing) `std::isnan` guards on
those `int` indices, then rasterise. -/
def VoxelCastingBresenham (ray_start ray_end : V3f) (step_size : Fp) :
    Option (List V3i) :=
  let x0 := (ray_start.x / step_size).floor
  let y0 := (ray_start.y / step_size).floor
  let z0 := (ray_start.z / step_size).floor
  if isnanInt x0 || isnanInt y0 || isnanInt z0 then some [] else
  let x1 := (ray_end.x / step_size).floor
  let y1 := (ray_end.y / step_size).floor
  let z1 := (ray_end.z / step_size).floor
  if isnanInt x1 || isnanInt y1 || isnanInt z1 then some [] else
  bresenhamPath x0 y0 z0 x1 y1 z1

theorem bAxis_iter (d dm s : Int) (hd0 : 0 ≤ d) (hd1 : d ≤ dm) :
    ∀ (n : Nat) (x e : Int), 0 ≤ e → e < dm →
      ∃ w : Int, (bAxis d dm s)^[n] (x, e) = (x + s * w, e - n * d + w * dm) ∧
        0 ≤ e - n * d + w * dm ∧ e - n * d + w * dm < dm := by
  intro n
  induction n with
  | zero =>
    intro x e he0 he1
    refine ⟨0, ?_, ?_, ?_⟩
    · simp
    · simpa using he0
    · simpa using he1
  | succ n ih =>
    intro x e he0 he1
    rw [Function.iterate_succ_apply]
    by_cases h : e - d < 0
    · have hb : bAxis d dm s (x, e) = (x + s, e - d + dm) := by
        simp [bAxis, h]
      rw [hb]
      obtain ⟨w, hw, h0, h1⟩ := ih (x + s) (e - d + dm) (by omega) (by omega)
      have heq : e - ((n : Int) + 1) * d + (w + 1) * dm
          = e - d + dm - (n : Int) * d + w * dm := by ring
      refine ⟨w + 1, ?_, ?_, ?_⟩
      · rw [hw, Prod.mk.injEq]
        constructor
        · ring
        · push_cast
          rw [heq]
      · push_cast
        rw [heq]
        exact h0
      · push_cast
        rw [heq]
        exact h1
    · have hb : bAxis d dm s (x, e) = (x, e - d) := by
        simp [bAxis, h]
      rw [hb]
      obtain ⟨w, hw, h0, h1⟩ := ih x (e - d) (by omega) (by omega)
      have heq : e - ((n : Int) + 1) * d + w * dm
          = e - d - (n : Int) * d + w * dm := by ring
      refine ⟨w, ?_, ?_, ?_⟩
      · rw [hw, Prod.mk.injEq]
        constructor
        · rfl
        · push_cast
          rw [heq]
      · push_cast
        rw [heq]
        exact h0
      · push_cast
        rw [heq]
        exact h1

theorem bAxis_final (d dm s x e : Int) (hdm : 0 < dm) (hd0 : 0 ≤ d) (hd1 : d ≤ dm)
    (he0 : 0 ≤ e) (he1 : e < dm) :
    (bAxis d dm s)^[dm.toNat] (x, e) = (x + s * d, e) := by
  obtain ⟨w, hw, h0, h1⟩ := bAxis_iter d dm s hd0 hd1 dm.toNat x e he0 he1
  have hcast : ((dm.toNat : Nat) : Int) = dm := Int.toNat_of_nonneg hdm.le
  rw [hcast] at hw h0 h1
  have h5 : e - dm * d + w * dm = e + (w - d) * dm := by ring
  rw [h5] at h0 h1
  have hwd : w = d := by
    rcases lt_trichotomy w d with hlt | hgood | hgt
    · exfalso
      have h2 : w - d ≤ -1 := by omega
      have h3 : (w - d) * dm ≤ -1 * dm := mul_le_mul_of_nonneg_right h2 hdm.le
      linarith
    · exact hgood
    · exfalso
      have h2 : (1 : Int) ≤ w - d := by omega
      have h3 : 1 * dm ≤ (w - d) * dm := mul_le_mul_of_nonneg_right h2 hdm.le
      linarith
  rw [hwd] at hw
  rw [hw, Prod.mk.injEq]
  exact ⟨rfl, by ring⟩

theorem bUpdate_proj_x (p : BParams) :
    ∀ (n : Nat) (st : BState),
      (((bUpdate p)^[n] st).x0, ((bUpdate p)^[n] st).ex) =
        (bAxis p.dx p.dm p.sx)^[n] (st.x0, st.ex) := by
  intro n
  induction n with
  | zero => intro st; rfl
  | succ n ih =>
    intro st
    rw [Function.iterate_succ_apply, Function.iterate_succ_apply]
    exact ih (bUpdate p st)

theorem bUpdate_proj_y (p : BParams) :
    ∀ (n : Nat) (st : BState),
      (((bUpdate p)^[n] st).y0, ((bUpdate p)^[n] st).ey) =
        (bAxis p.dy p.dm p.sy)^[n] (st.y0, st.ey) := by
  intro n
  induction n with
  | zero => intro st; rfl
  | succ n ih =>
    intro st
    rw [Function.iterate_succ_apply, Function.iterate_succ_apply]
    exact ih (bUpdate p st)

theorem bUpdate_proj_z (p : BParams) :
    ∀ (n : Nat) (st : BState),
      (((bUpdate p)^[n] st).z0, ((bUpdate p)^[n] st).ez) =
        (bAxis p.dz p.dm p.sz)^[n] (st.z0, st.ez) := by
  intro n
  induction n with
  | zero => intro st; rfl
  | succ n ih =>
    intro st
    rw [Function.iterate_succ_apply, Function.iterate_succ_apply]
    exact ih (bUpdate p st)

theorem bParamsOf_dm_nonneg (x0 y0 z0 x1 y1 z1 : Int) :
    0 ≤ (bParamsOf x0 y0 z0 x1 y1 z1).dm :=
  le_trans (abs_nonneg _) (le_max_right _ _)

theorem bParamsOf_dx_le (x0 y0 z0 x1 y1 z1 : Int) :
    (bParamsOf x0 y0 z0 x1 y1 z1).dx ≤ (bParamsOf x0 y0 z0 x1 y1 z1).dm :=
  le_trans (le_max_left _ _) (le_max_left _ _)

theorem bParamsOf_dy_le (x0 y0 z0 x1 y1 z1 : Int) :
    (bParamsOf x0 y0 z0 x1 y1 z1).dy ≤ (bParamsOf x0 y0 z0 x1 y1 z1).dm :=
  le_trans (le_max_right _ _) (le_max_left _ _)

theorem bParamsOf_dz_le (x0 y0 z0 x1 y1 z1 : Int) :
    (bParamsOf x0 y0 z0 x1 y1 z1).dz ≤ (bParamsOf x0 y0 z0 x1 y1 z1).dm :=
  le_max_right _ _

theorem bParamsOf_dx (x0 y0 z0 x1 y1 z1 : Int) :
    (bParamsOf x0 y0 z0 x1 y1 z1).dx = |x1 - x0| := rfl

theorem bParamsOf_dy (x0 y0 z0 x1 y1 z1 : Int) :
    (bParamsOf x0 y0 z0 x1 y1 z1).dy = |y1 - y0| := rfl

theorem bParamsOf_dz (x0 y0 z0 x1 y1 z1 : Int) :
    (bParamsOf x0 y0 z0 x1 y1 z1).dz = |z1 - z0| := rfl

theorem bParamsOf_sx (x0 y0 z0 x1 y1 z1 : Int) :
    (bParamsOf x0 y0 z0 x1 y1 z1).sx = if x0 < x1 then 1 else -1 := rfl

theorem bParamsOf_sy (x0 y0 z0 x1 y1 z1 : Int) :
    (bParamsOf x0 y0 z0 x1 y1 z1).sy = if y0 < y1 then 1 else -1 := rfl

theorem bParamsOf_sz (x0 y0 z0 x1 y1 z1 : Int) :
    (bParamsOf x0 y0 z0 x1 y1 z1).sz = if z0 < z1 then 1 else -1 := rfl

theorem signed_delta (a b : Int) :
    (if a < b then (1 : Int) else -1) * |b - a| = b - a := by
  rcases lt_or_ge a b with h | h
  · rw [if_pos h, one_mul, abs_of_nonneg (by omega)]
  · rw [if_neg (not_lt.mpr h), abs_of_nonpos (by omega)]
    ring

theorem bresenhamFinal_eq (x0 y0 z0 x1 y1 z1 : Int) :
    bresenhamFinal x0 y0 z0 x1 y1 z1 =
      ⟨x1, y1, z1,
        (bParamsOf x0 y0 z0 x1 y1 z1).dm / 2,
        (bParamsOf x0 y0 z0 x1 y1 z1).dm / 2,
        (bParamsOf x0 y0 z0 x1 y1 z1).dm / 2⟩ := by
  rcases eq_or_lt_of_le (bParamsOf_dm_nonneg x0 y0 z0 x1 y1 z1) with h0 | hpos
  · have hdx : |x1 - x0| ≤ 0 := by
      have h := bParamsOf_dx_le x0 y0 z0 x1 y1 z1
      rw [bParamsOf_dx, ← h0] at h
      exact h
    have hdy : |y1 - y0| ≤ 0 := by
      have h := bParamsOf_dy_le x0 y0 z0 x1 y1 z1
      rw [bParamsOf_dy, ← h0] at h
      exact h
    have hdz : |z1 - z0| ≤ 0 := by
      have h := bParamsOf_dz_le x0 y0 z0 x1 y1 z1
      rw [bParamsOf_dz, ← h0] at h
      exact h
    have hx : x1 = x0 := by
      have := abs_nonneg (x1 - x0)
      have h2 : |x1 - x0| = 0 := le_antisymm hdx this
      have := abs_eq_zero.mp h2
      omega
    have hy : y1 = y0 := by
      have := abs_nonneg (y1 - y0)
      have h2 : |y1 - y0| = 0 := le_antisymm hdy this
      have := abs_eq_zero.mp h2
      omega
    have hz : z1 = z0 := by
      have := abs_nonneg (z1 - z0)
      have h2 : |z1 - z0| = 0 := le_antisymm hdz this
      have := abs_eq_zero.mp h2
      omega
    have htn : (bParamsOf x0 y0 z0 x1 y1 z1).dm.toNat = 0 := by omega
    unfold bresenhamFinal
    rw [htn, Function.iterate_zero]
    rw [hx, hy, hz]
    rfl
  · set p := bParamsOf x0 y0 z0 x1 y1 z1 with hp
    have hex0 : 0 ≤ p.dm / 2 := by omega
    have hex1 : p.dm / 2 < p.dm := by omega
    have hx := bUpdate_proj_x p p.dm.toNat (bStart x0 y0 z0 p.dm)
    have hy := bUpdate_proj_y p p.dm.toNat (bStart x0 y0 z0 p.dm)
    have hz := bUpdate_proj_z p p.dm.toNat (bStart x0 y0 z0 p.dm)
    have hbx : (bStart x0 y0 z0 p.dm).x0 = x0 := rfl
    have hbex : (bStart x0 y0 z0 p.dm).ex = p.dm / 2 := rfl
    rw [hbx, hbex] at hx
    rw [bAxis_final p.dx p.dm p.sx x0 (p.dm / 2) hpos (abs_nonneg _)
      (bParamsOf_dx_le x0 y0 z0 x1 y1 z1) hex0 hex1] at hx
    have hby : (bStart x0 y0 z0 p.dm).y0 = y0 := rfl
    have hbey : (bStart x0 y0 z0 p.dm).ey = p.dm / 2 := rfl
    rw [hby, hbey] at hy
    rw [bAxis_final p.dy p.dm p.sy y0 (p.dm / 2) hpos (abs_nonneg _)
      (bParamsOf_dy_le x0 y0 z0 x1 y1 z1) hex0 hex1] at hy
    have hbz : (bStart x0 y0 z0 p.dm).z0 = z0 := rfl
    have hbez : (bStart x0 y0 z0 p.dm).ez = p.dm / 2 := rfl
    rw [hbz, hbez] at hz
    rw [bAxis_final p.dz p.dm p.sz z0 (p.dm / 2) hpos (abs_nonneg _)
      (bParamsOf_dz_le x0 y0 z0 x1 y1 z1) hex0 hex1] at hz
    rw [Prod.mk.injEq] at hx hy hz
    have hsx : x0 + p.sx * p.dx = x1 := by
      have hpd : p.sx * p.dx = x1 - x0 := signed_delta x0 x1
      linarith
    have hsy : y0 + p.sy * p.dy = y1 := by
      have hpd : p.sy * p.dy = y1 - y0 := signed_delta y0 y1
      linarith
    have hsz : z0 + p.sz * p.dz = z1 := by
      have hpd : p.sz * p.dz = z1 - z0 := signed_delta z0 z1
      linarith
    have hBF : bresenhamFinal x0 y0 z0 x1 y1 z1 =
        (bUpdate p)^[p.dm.toNat] (bStart x0 y0 z0 p.dm) := by
      rw [hp]
      rfl
    rw [hBF]
    calc (bUpdate p)^[p.dm.toNat] (bStart x0 y0 z0 p.dm)
        = ⟨((bUpdate p)^[p.dm.toNat] (bStart x0 y0 z0 p.dm)).x0,
            ((bUpdate p)^[p.dm.toNat] (bStart x0 y0 z0 p.dm)).y0,
            ((bUpdate p)^[p.dm.toNat] (bStart x0 y0 z0 p.dm)).z0,
            ((bUpdate p)^[p.dm.toNat] (bStart x0 y0 z0 p.dm)).ex,
            ((bUpdate p)^[p.dm.toNat] (bStart x0 y0 z0 p.dm)).ey,
            ((bUpdate p)^[p.dm.toNat] (bStart x0 y0 z0 p.dm)).ez⟩ := rfl
      _ = ⟨x1, y1, z1, p.dm / 2, p.dm / 2, p.dm / 2⟩ := by
          rw [hx.1, hy.1, hz.1, hx.2, hy.2, hz.2, hsx, hsy, hsz]

theorem bresenhamPath_eq (x0 y0 z0 x1 y1 z1 : Int) :
    bresenhamPath x0 y0 z0 x1 y1 z1 = some (bresenhamRun x0 y0 z0 x1 y1 z1) := by
  unfold bresenhamPath
  rw [bresenhamFinal_eq]
  simp

theorem bUpdate_x0 (p : BParams) (st : BState) :
    (bUpdate p st).x0 = if st.ex - p.dx < 0 then st.x0 + p.sx else st.x0 := by
  simp only [bUpdate, bAxis]
  split <;> rfl

theorem bUpdate_ex (p : BParams) (st : BState) :
    (bUpdate p st).ex =
      if st.ex - p.dx < 0 then st.ex - p.dx + p.dm else st.ex - p.dx := by
  simp only [bUpdate, bAxis]
  split <;> rfl

theorem bUpdate_y0 (p : BParams) (st : BState) :
    (bUpdate p st).y0 = if st.ey - p.dy < 0 then st.y0 + p.sy else st.y0 := by
  simp only [bUpdate, bAxis]
  split <;> rfl

theorem bUpdate_ey (p : BParams) (st : BState) :
    (bUpdate p st).ey =
      if st.ey - p.dy < 0 then st.ey - p.dy + p.dm else st.ey - p.dy := by
  simp only [bUpdate, bAxis]
  split <;> rfl

theorem bUpdate_z0 (p : BParams) (st : BState) :
    (bUpdate p st).z0 = if st.ez - p.dz < 0 then st.z0 + p.sz else st.z0 := by
  simp only [bUpdate, bAxis]
  split <;> rfl

theorem bUpdate_ez (p : BParams) (st : BState) :
    (bUpdate p st).ez =
      if st.ez - p.dz < 0 then st.ez - p.dz + p.dm else st.ez - p.dz := by
  simp only [bUpdate, bAxis]
  split <;> rfl

/-- The invariant that keeps every Bresenham accumulator inside `[0, dm)`. -/
def bInv (p : BParams) (st : BState) : Prop :=
  (0 ≤ st.ex ∧ st.ex < p.dm) ∧ (0 ≤ st.ey ∧ st.ey < p.dm) ∧
    (0 ≤ st.ez ∧ st.ez < p.dm)

theorem bInv_step (p : BParams) (hdx0 : 0 ≤ p.dx) (hdx1 : p.dx ≤ p.dm)
    (hdy0 : 0 ≤ p.dy) (hdy1 : p.dy ≤ p.dm) (hdz0 : 0 ≤ p.dz) (hdz1 : p.dz ≤ p.dm)
    (st : BState) (h : bInv p st) : bInv p (bUpdate p st) := by
  obtain ⟨⟨h1, h2⟩, ⟨h3, h4⟩, ⟨h5, h6⟩⟩ := h
  refine ⟨?_, ?_, ?_⟩
  · rw [bUpdate_ex]
    split <;> omega
  · rw [bUpdate_ey]
    split <;> omega
  · rw [bUpdate_ez]
    split <;> omega

theorem bUpdate_voxel_ne (p : BParams) (hpos : 0 < p.dm)
    (hdom : p.dx = p.dm ∨ p.dy = p.dm ∨ p.dz = p.dm)
    (hsx : p.sx = 1 ∨ p.sx = -1) (hsy : p.sy = 1 ∨ p.sy = -1)
    (hsz : p.sz = 1 ∨ p.sz = -1)
    (st : BState) (h : bInv p st) : bVoxel st ≠ bVoxel (bUpdate p st) := by
  obtain ⟨⟨h1, h2⟩, ⟨h3, h4⟩, ⟨h5, h6⟩⟩ := h
  rcases hdom with hd | hd | hd
  · have hx : (bUpdate p st).x0 = st.x0 + p.sx := by
      rw [bUpdate_x0, if_pos (by omega)]
    intro he
    have := congrArg V3i.x he
    simp only [bVoxel] at this
    rw [hx] at this
    omega
  · have hy : (bUpdate p st).y0 = st.y0 + p.sy := by
      rw [bUpdate_y0, if_pos (by omega)]
    intro he
    have := congrArg V3i.y he
    simp only [bVoxel] at this
    rw [hy] at this
    omega
  · have hz : (bUpdate p st).z0 = st.z0 + p.sz := by
      rw [bUpdate_z0, if_pos (by omega)]
    intro he
    have := congrArg V3i.z he
    simp only [bVoxel] at this
    rw [hz] at this
    omega

theorem bUpdate_voxel_cheb (p : BParams)
    (hsx : p.sx = 1 ∨ p.sx = -1) (hsy : p.sy = 1 ∨ p.sy = -1)
    (hsz : p.sz = 1 ∨ p.sz = -1)
    (st : BState) : chebAdj (bVoxel st) (bVoxel (bUpdate p st)) := by
  refine ⟨?_, ?_, ?_⟩
  · show |(bUpdate p st).x0 - st.x0| ≤ 1
    rw [bUpdate_x0]
    split
    · rcases hsx with h | h <;> rw [h] <;> simp
    · simp
  · show |(bUpdate p st).y0 - st.y0| ≤ 1
    rw [bUpdate_y0]
    split
    · rcases hsy with h | h <;> rw [h] <;> simp
    · simp
  · show |(bUpdate p st).z0 - st.z0| ≤ 1
    rw [bUpdate_z0]
    split
    · rcases hsz with h | h <;> rw [h] <;> simp
    · simp

theorem bParamsOf_dm_max (x0 y0 z0 x1 y1 z1 : Int) :
    (bParamsOf x0 y0 z0 x1 y1 z1).dm =
      max (max (bParamsOf x0 y0 z0 x1 y1 z1).dx (bParamsOf x0 y0 z0 x1 y1 z1).dy)
        (bParamsOf x0 y0 z0 x1 y1 z1).dz := rfl

theorem bParamsOf_dom (x0 y0 z0 x1 y1 z1 : Int) :
    (bParamsOf x0 y0 z0 x1 y1 z1).dx = (bParamsOf x0 y0 z0 x1 y1 z1).dm ∨
      (bParamsOf x0 y0 z0 x1 y1 z1).dy = (bParamsOf x0 y0 z0 x1 y1 z1).dm ∨
      (bParamsOf x0 y0 z0 x1 y1 z1).dz = (bParamsOf x0 y0 z0 x1 y1 z1).dm := by
  rw [bParamsOf_dm_max]
  rcases max_choice (max (bParamsOf x0 y0 z0 x1 y1 z1).dx (bParamsOf x0 y0 z0 x1 y1 z1).dy)
      (bParamsOf x0 y0 z0 x1 y1 z1).dz with h | h
  · rw [h]
    rcases max_choice (bParamsOf x0 y0 z0 x1 y1 z1).dx
        (bParamsOf x0 y0 z0 x1 y1 z1).dy with h2 | h2
    · left
      rw [h2]
    · right
      left
      rw [h2]
  · right
    right
    rw [h]

theorem bParamsOf_sx_unit (x0 y0 z0 x1 y1 z1 : Int) :
    (bParamsOf x0 y0 z0 x1 y1 z1).sx = 1 ∨ (bParamsOf x0 y0 z0 x1 y1 z1).sx = -1 := by
  rw [bParamsOf_sx]
  split
  · left
    rfl
  · right
    rfl

theorem bParamsOf_sy_unit (x0 y0 z0 x1 y1 z1 : Int) :
    (bParamsOf x0 y0 z0 x1 y1 z1).sy = 1 ∨ (bParamsOf x0 y0 z0 x1 y1 z1).sy = -1 := by
  rw [bParamsOf_sy]
  split
  · left
    rfl
  · right
    rfl

theorem bParamsOf_sz_unit (x0 y0 z0 x1 y1 z1 : Int) :
    (bParamsOf x0 y0 z0 x1 y1 z1).sz = 1 ∨ (bParamsOf x0 y0 z0 x1 y1 z1).sz = -1 := by
  rw [bParamsOf_sz]
  split
  · left
    rfl
  · right
    rfl

theorem bresenhamRun_chain_ne (x0 y0 z0 x1 y1 z1 : Int) :
    List.Chain' (fun a b => a ≠ b) (bresenhamRun x0 y0 z0 x1 y1 z1) := by
  rcases eq_or_lt_of_le (bParamsOf_dm_nonneg x0 y0 z0 x1 y1 z1) with h0 | hpos
  · have htn : (bParamsOf x0 y0 z0 x1 y1 z1).dm.toNat = 0 := by omega
    unfold bresenhamRun
    rw [htn]
    simp [iterPath]
  · unfold bresenhamRun
    refine iterPath_chain _ bVoxel _ (bInv (bParamsOf x0 y0 z0 x1 y1 z1))
      (fun st h => bInv_step _ ?_ ?_ ?_ ?_ ?_ ?_ st h)
      (fun st h => bUpdate_voxel_ne _ hpos ?_ ?_ ?_ ?_ st h) _ _ ?_
    · rw [bParamsOf_dx]
      exact abs_nonneg _
    · exact bParamsOf_dx_le x0 y0 z0 x1 y1 z1
    · rw [bParamsOf_dy]
      exact abs_nonneg _
    · exact bParamsOf_dy_le x0 y0 z0 x1 y1 z1
    · rw [bParamsOf_dz]
      exact abs_nonneg _
    · exact bParamsOf_dz_le x0 y0 z0 x1 y1 z1
    · exact bParamsOf_dom x0 y0 z0 x1 y1 z1
    · exact bParamsOf_sx_unit x0 y0 z0 x1 y1 z1
    · exact bParamsOf_sy_unit x0 y0 z0 x1 y1 z1
    · exact bParamsOf_sz_unit x0 y0 z0 x1 y1 z1
    · refine ⟨⟨?_, ?_⟩, ⟨?_, ?_⟩, ⟨?_, ?_⟩⟩ <;> simp only [bStart] <;> omega

theorem bresenhamRun_chain_cheb (x0 y0 z0 x1 y1 z1 : Int) :
    List.Chain' chebAdj (bresenhamRun x0 y0 z0 x1 y1 z1) := by
  unfold bresenhamRun
  refine iterPath_chain _ bVoxel _ (fun _ => True) (fun _ _ => trivial)
    (fun st _ => bUpdate_voxel_cheb _ ?_ ?_ ?_ st) _ _ trivial
  · exact bParamsOf_sx_unit x0 y0 z0 x1 y1 z1
  · exact bParamsOf_sy_unit x0 y0 z0 x1 y1 z1
  · exact bParamsOf_sz_unit x0 y0 z0 x1 y1 z1

theorem bresenhamRun_head (x0 y0 z0 x1 y1 z1 : Int) :
    (bresenhamRun x0 y0 z0 x1 y1 z1).head? = some ⟨x0, y0, z0⟩ := by
  unfold bresenhamRun
  rw [iterPath_head]
  rfl

theorem bresenhamRun_last (x0 y0 z0 x1 y1 z1 : Int) :
    (bresenhamRun x0 y0 z0 x1 y1 z1).getLast? = some ⟨x1, y1, z1⟩ := by
  unfold bresenhamRun
  rw [iterPath_getLast]
  have h : (bUpdate (bParamsOf x0 y0 z0 x1 y1 z1))^[(bParamsOf x0 y0 z0 x1 y1 z1).dm.toNat]
      (bStart x0 y0 z0 (bParamsOf x0 y0 z0 x1 y1 z1).dm) =
        bresenhamFinal x0 y0 z0 x1 y1 z1 := rfl
  rw [h, bresenhamFinal_eq]
  rfl

theorem bresenhamRun_length (x0 y0 z0 x1 y1 z1 : Int) :
    ((bresenhamRun x0 y0 z0 x1 y1 z1).length : Int) =
      max (max |x1 - x0| |y1 - y0|) |z1 - z0| + 1 := by
  unfold bresenhamRun
  rw [iterPath_length]
  push_cast
  rw [Int.toNat_of_nonneg (bParamsOf_dm_nonneg x0 y0 z0 x1 y1 z1)]
  rfl

theorem bresenhamRun_single (c1 c2 c3 : Int) :
    bresenhamRun c1 c2 c3 c1 c2 c3 = [⟨c1, c2, c3⟩] := by
  unfold bresenhamRun
  have h : (bParamsOf c1 c2 c3 c1 c2 c3).dm = 0 := by
    rw [bParamsOf_dm_max, bParamsOf_dx, bParamsOf_dy, bParamsOf_dz]
    simp
  rw [h]
  rfl

theorem VoxelCastingBresenham_eq (rs re : V3f) (s : Fp) :
    VoxelCastingBresenham rs re s =
      some (bresenhamRun (voxelIndex rs s).x (voxelIndex rs s).y (voxelIndex rs s).z
        (voxelIndex re s).x (voxelIndex re s).y (voxelIndex re s).z) := by
  show bresenhamPath ((rs.x / s).floor) ((rs.y / s).floor) ((rs.z / s).floor)
      ((re.x / s).floor) ((re.y / s).floor) ((re.z / s).floor) = _
  rw [bresenhamPath_eq]
  rfl

/-!
`VoxelCastingDDA` (`src/common/math.cc:198-273`): the shared-threshold
integer traversal.  Error accumulators start at zero; each iteration adds
the axis delta and compares twice the accumulator against `max_delta`;
every axis whose accumulator reaches the threshold steps in the same
iteration.
-/

/-- Per-axis DDA update on a `(coordinate, accumulator)` pair:
`e += d; if ((e << 1) >= max_delta) { x += s; e -= max_delta; }`. -/
def dAxis (d md s : Int) : Int × Int → Int × Int
  | (x, e) => if md ≤ 2 * (e + d) then (x + s, e + d - md) else (x, e + d)

/-- The loop-invariant parameters of `VoxelCastingDDA`: per-axis absolute
deltas, `max_delta`, per-axis unit steps. -/
structure DParams where
  dx : Int
  dy : Int
  dz : Int
  max_delta : Int
  sx : Int
  sy : Int
  sz : Int
deriving DecidableEq, Repr

/-- The mutable loop state of `VoxelCastingDDA`: `current_voxel` and the
three entries of `error`. -/
structure DState where
  x : Int
  y : Int
  z : Int
  ex : Int
  ey : Int
  ez : Int
deriving DecidableEq, Repr

/-- One iteration of the DDA loop body after the emit: the three per-axis
error updates, each possibly stepping its own axis. -/
def dUpdate (p : DParams) (st : DState) : DState :=
  let xa := dAxis p.dx p.max_delta p.sx (st.x, st.ex)
  let ya := dAxis p.dy p.max_delta p.sy (st.y, st.ey)
  let za := dAxis p.dz p.max_delta p.sz (st.z, st.ez)
  ⟨xa.1, ya.1, za.1, xa.2, ya.2, za.2⟩

/-- The voxel emitted by `visited_voxels.push_back(current_voxel)`. -/
def dVoxel (st : DState) : V3i := ⟨st.x, st.y, st.z⟩

/-- The parameters `VoxelCastingDDA` derives from the start and end voxel
indices: signed deltas, unit steps `delta >= 0 ? 1 : -1`, absolute deltas
via `delta < 0 ? -delta : delta`, and `max_delta` via two ternary
comparisons. -/
def dParamsOf (x0 y0 z0 x1 y1 z1 : Int) : DParams :=
  let delta_x := x1 - x0
  let delta_y := y1 - y0
  let delta_z := z1 - z0
  let sx : Int := if 0 ≤ delta_x then 1 else -1
  let sy : Int := if 0 ≤ delta_y then 1 else -1
  let sz : Int := if 0 ≤ delta_z then 1 else -1
  let dx := if delta_x < 0 then -delta_x else delta_x
  let dy := if delta_y < 0 then -delta_y else delta_y
  let dz := if delta_z < 0 then -delta_z else delta_z
  let md := if dx > dy then dx else dy
  ⟨dx, dy, dz, if md > dz then md else dz, sx, sy, sz⟩

/-- The initial loop state: `current_voxel = start_voxel`,
`error = (0, 0, 0)`. -/
def dStart (x0 y0 z0 : Int) : DState := ⟨x0, y0, z0, 0, 0, 0⟩

/-- The sequence of voxels `VoxelCastingDDA` emits: `max_delta` loop
emissions plus the final `push_back` after the loop. -/
def ddaRun (x0 y0 z0 x1 y1 z1 : Int) : List V3i :=
  iterPath (dUpdate (dParamsOf x0 y0 z0 x1 y1 z1)) dVoxel
    (dParamsOf x0 y0 z0 x1 y1 z1).max_delta.toNat (dStart x0 y0 z0)

/-- The loop state after the final iteration. -/
def ddaFinal (x0 y0 z0 x1 y1 z1 : Int) : DState :=
  (dUpdate (dParamsOf x0 y0 z0 x1 y1 z1))^[(dParamsOf x0 y0 z0 x1 y1 z1).max_delta.toNat]
    (dStart x0 y0 z0)

/-- The integer part of `VoxelCastingDDA`, from computed start/end voxel
indices to the returned path.  The trailing
`CHECK_EQ(current_voxel, end_voxel)` fatal assertion is modelled by `none`
(process abort) on mismatch. -/
def ddaPath (x0 y0 z0 x1 y1 z1 : Int) : Option (List V3i) :=
  if dVoxel (ddaFinal x0 y0 z0 x1 y1 z1) = (⟨x1, y1, z1⟩ : V3i) then
    some (ddaRun x0 y0 z0 x1 y1 z1)
  else none

/-- `VoxelCastingDDA` (`src/common/math.cc:198-273`): round the six
coordinates to voxel indices, run the (never-firing) `std::isnan` guards on
the `int` components of the index vectors, then rasterise. -/
def VoxelCastingDDA (ray_start ray_end : V3f) (step_size : Fp) :
    Option (List V3i) :=
  let start_voxel : V3i := ⟨(ray_start.x / step_size).floor,
    (ray_start.y / step_size).floor, (ray_start.z / step_size).floor⟩
  if isnanInt start_voxel.x || isnanInt start_voxel.y || isnanInt start_voxel.z then
    some [] else
  let end_voxel : V3i := ⟨(ray_end.x / step_size).floor,
    (ray_end.y / step_size).floor, (ray_end.z / step_size).floor⟩
  if isnanInt end_voxel.x || isnanInt end_voxel.y || isnanInt end_voxel.z then
    some [] else
  ddaPath start_voxel.x start_voxel.y start_voxel.z end_voxel.x end_voxel.y end_voxel.z

theorem dAxis_iter (d md s : Int) (hd0 : 0 ≤ d) (hd1 : d ≤ md) :
    ∀ (n : Nat) (x e : Int), -md ≤ 2 * e → 2 * e < md →
      ∃ w : Int, (dAxis d md s)^[n] (x, e) = (x + s * w, e + n * d - w * md) ∧
        -md ≤ 2 * (e + n * d - w * md) ∧ 2 * (e + n * d - w * md) < md := by
  intro n
  induction n with
  | zero =>
    intro x e he0 he1
    refine ⟨0, ?_, ?_, ?_⟩
    · simp
    · simpa using he0
    · simpa using he1
  | succ n ih =>
    intro x e he0 he1
    rw [Function.iterate_succ_apply]
    by_cases h : md ≤ 2 * (e + d)
    · have hb : dAxis d md s (x, e) = (x + s, e + d - md) := by
        simp [dAxis, h]
      rw [hb]
      obtain ⟨w, hw, h0, h1⟩ := ih (x + s) (e + d - md) (by omega) (by omega)
      have heq : e + ((n : Int) + 1) * d - (w + 1) * md
          = e + d - md + (n : Int) * d - w * md := by ring
      refine ⟨w + 1, ?_, ?_, ?_⟩
      · rw [hw, Prod.mk.injEq]
        constructor
        · ring
        · push_cast
          rw [heq]
      · push_cast
        rw [heq]
        exact h0
      · push_cast
        rw [heq]
        exact h1
    · have hb : dAxis d md s (x, e) = (x, e + d) := by
        simp [dAxis, h]
      rw [hb]
      obtain ⟨w, hw, h0, h1⟩ := ih x (e + d) (by omega) (by omega)
      have heq : e + ((n : Int) + 1) * d - w * md
          = e + d + (n : Int) * d - w * md := by ring
      refine ⟨w, ?_, ?_, ?_⟩
      · rw [hw, Prod.mk.injEq]
        constructor
        · rfl
        · push_cast
          rw [heq]
      · push_cast
        rw [heq]
        exact h0
      · push_cast
        rw [heq]
        exact h1

theorem dAxis_final (d md s x : Int) (hmd : 0 < md) (hd0 : 0 ≤ d) (hd1 : d ≤ md) :
    (dAxis d md s)^[md.toNat] (x, 0) = (x + s * d, 0) := by
  obtain ⟨w, hw, h0, h1⟩ := dAxis_iter d md s hd0 hd1 md.toNat x 0 (by omega) (by omega)
  have hcast : ((md.toNat : Nat) : Int) = md := Int.toNat_of_nonneg hmd.le
  rw [hcast] at hw h0 h1
  have h5 : (0 : Int) + md * d - w * md = (d - w) * md := by ring
  rw [h5] at h0 h1
  have hwd : w = d := by
    rcases lt_trichotomy w d with hlt | hgood | hgt
    · exfalso
      have h2 : (1 : Int) ≤ d - w := by omega
      have h3 : 1 * md ≤ (d - w) * md := mul_le_mul_of_nonneg_right h2 hmd.le
      linarith
    · exact hgood
    · exfalso
      have h2 : d - w ≤ -1 := by omega
      have h3 : (d - w) * md ≤ -1 * md := mul_le_mul_of_nonneg_right h2 hmd.le
      linarith
  rw [hwd] at hw
  rw [hw, Prod.mk.injEq]
  exact ⟨rfl, by ring⟩

theorem dUpdate_proj_x (p : DParams) :
    ∀ (n : Nat) (st : DState),
      (((dUpdate p)^[n] st).x, ((dUpdate p)^[n] st).ex) =
        (dAxis p.dx p.max_delta p.sx)^[n] (st.x, st.ex) := by
  intro n
  induction n with
  | zero => intro st; rfl
  | succ n ih =>
    intro st
    rw [Function.iterate_succ_apply, Function.iterate_succ_apply]
    exact ih (dUpdate p st)

theorem dUpdate_proj_y (p : DParams) :
    ∀ (n : Nat) (st : DState),
      (((dUpdate p)^[n] st).y, ((dUpdate p)^[n] st).ey) =
        (dAxis p.dy p.max_delta p.sy)^[n] (st.y, st.ey) := by
  intro n
  induction n with
  | zero => intro st; rfl
  | succ n ih =>
    intro st
    rw [Function.iterate_succ_apply, Function.iterate_succ_apply]
    exact ih (dUpdate p st)

theorem dUpdate_proj_z (p : DParams) :
    ∀ (n : Nat) (st : DState),
      (((dUpdate p)^[n] st).z, ((dUpdate p)^[n] st).ez) =
        (dAxis p.dz p.max_delta p.sz)^[n] (st.z, st.ez) := by
  intro n
  induction n with
  | zero => intro st; rfl
  | succ n ih =>
    intro st
    rw [Function.iterate_succ_apply, Function.iterate_succ_apply]
    exact ih (dUpdate p st)

theorem dParamsOf_dx (x0 y0 z0 x1 y1 z1 : Int) :
    (dParamsOf x0 y0 z0 x1 y1 z1).dx =
      if x1 - x0 < 0 then -(x1 - x0) else x1 - x0 := rfl

theorem dParamsOf_dy (x0 y0 z0 x1 y1 z1 : Int) :
    (dParamsOf x0 y0 z0 x1 y1 z1).dy =
      if y1 - y0 < 0 then -(y1 - y0) else y1 - y0 := rfl

theorem dParamsOf_dz (x0 y0 z0 x1 y1 z1 : Int) :
    (dParamsOf x0 y0 z0 x1 y1 z1).dz =
      if z1 - z0 < 0 then -(z1 - z0) else z1 - z0 := rfl

theorem dParamsOf_sx (x0 y0 z0 x1 y1 z1 : Int) :
    (dParamsOf x0 y0 z0 x1 y1 z1).sx = if 0 ≤ x1 - x0 then 1 else -1 := rfl

theorem dParamsOf_sy (x0 y0 z0 x1 y1 z1 : Int) :
    (dParamsOf x0 y0 z0 x1 y1 z1).sy = if 0 ≤ y1 - y0 then 1 else -1 := rfl

theorem dParamsOf_sz (x0 y0 z0 x1 y1 z1 : Int) :
    (dParamsOf x0 y0 z0 x1 y1 z1).sz = if 0 ≤ z1 - z0 then 1 else -1 := rfl

theorem dParamsOf_md (x0 y0 z0 x1 y1 z1 : Int) :
    (dParamsOf x0 y0 z0 x1 y1 z1).max_delta =
      if (if (dParamsOf x0 y0 z0 x1 y1 z1).dx > (dParamsOf x0 y0 z0 x1 y1 z1).dy
          then (dParamsOf x0 y0 z0 x1 y1 z1).dx else (dParamsOf x0 y0 z0 x1 y1 z1).dy) >
          (dParamsOf x0 y0 z0 x1 y1 z1).dz
      then (if (dParamsOf x0 y0 z0 x1 y1 z1).dx > (dParamsOf x0 y0 z0 x1 y1 z1).dy
          then (dParamsOf x0 y0 z0 x1 y1 z1).dx else (dParamsOf x0 y0 z0 x1 y1 z1).dy)
      else (dParamsOf x0 y0 z0 x1 y1 z1).dz := rfl

theorem dParamsOf_dx_nonneg (x0 y0 z0 x1 y1 z1 : Int) :
    0 ≤ (dParamsOf x0 y0 z0 x1 y1 z1).dx := by
  rw [dParamsOf_dx]
  split <;> omega

theorem dParamsOf_dy_nonneg (x0 y0 z0 x1 y1 z1 : Int) :
    0 ≤ (dParamsOf x0 y0 z0 x1 y1 z1).dy := by
  rw [dParamsOf_dy]
  split <;> omega

theorem dParamsOf_dz_nonneg (x0 y0 z0 x1 y1 z1 : Int) :
    0 ≤ (dParamsOf x0 y0 z0 x1 y1 z1).dz := by
  rw [dParamsOf_dz]
  split <;> omega

theorem dParamsOf_dx_le (x0 y0 z0 x1 y1 z1 : Int) :
    (dParamsOf x0 y0 z0 x1 y1 z1).dx ≤ (dParamsOf x0 y0 z0 x1 y1 z1).max_delta := by
  rw [dParamsOf_md]
  split <;> split <;> omega

theorem dParamsOf_dy_le (x0 y0 z0 x1 y1 z1 : Int) :
    (dParamsOf x0 y0 z0 x1 y1 z1).dy ≤ (dParamsOf x0 y0 z0 x1 y1 z1).max_delta := by
  rw [dParamsOf_md]
  split <;> split <;> omega

theorem dParamsOf_dz_le (x0 y0 z0 x1 y1 z1 : Int) :
    (dParamsOf x0 y0 z0 x1 y1 z1).dz ≤ (dParamsOf x0 y0 z0 x1 y1 z1).max_delta := by
  rw [dParamsOf_md]
  split <;> split <;> omega

theorem dParamsOf_md_nonneg (x0 y0 z0 x1 y1 z1 : Int) :
    0 ≤ (dParamsOf x0 y0 z0 x1 y1 z1).max_delta := by
  have := dParamsOf_dx_nonneg x0 y0 z0 x1 y1 z1
  have := dParamsOf_dx_le x0 y0 z0 x1 y1 z1
  omega

theorem dParamsOf_dom (x0 y0 z0 x1 y1 z1 : Int) :
    (dParamsOf x0 y0 z0 x1 y1 z1).dx = (dParamsOf x0 y0 z0 x1 y1 z1).max_delta ∨
      (dParamsOf x0 y0 z0 x1 y1 z1).dy = (dParamsOf x0 y0 z0 x1 y1 z1).max_delta ∨
      (dParamsOf x0 y0 z0 x1 y1 z1).dz = (dParamsOf x0 y0 z0 x1 y1 z1).max_delta := by
  rw [dParamsOf_md]
  split <;> split <;> omega

theorem dParamsOf_sx_dx (x0 y0 z0 x1 y1 z1 : Int) :
    (dParamsOf x0 y0 z0 x1 y1 z1).sx * (dParamsOf x0 y0 z0 x1 y1 z1).dx = x1 - x0 := by
  rw [dParamsOf_sx, dParamsOf_dx]
  split <;> split <;> omega

theorem dParamsOf_sy_dy (x0 y0 z0 x1 y1 z1 : Int) :
    (dParamsOf x0 y0 z0 x1 y1 z1).sy * (dParamsOf x0 y0 z0 x1 y1 z1).dy = y1 - y0 := by
  rw [dParamsOf_sy, dParamsOf_dy]
  split <;> split <;> omega

theorem dParamsOf_sz_dz (x0 y0 z0 x1 y1 z1 : Int) :
    (dParamsOf x0 y0 z0 x1 y1 z1).sz * (dParamsOf x0 y0 z0 x1 y1 z1).dz = z1 - z0 := by
  rw [dParamsOf_sz, dParamsOf_dz]
  split <;> split <;> omega

theorem dParamsOf_sx_unit (x0 y0 z0 x1 y1 z1 : Int) :
    (dParamsOf x0 y0 z0 x1 y1 z1).sx = 1 ∨ (dParamsOf x0 y0 z0 x1 y1 z1).sx = -1 := by
  rw [dParamsOf_sx]
  split
  · left
    rfl
  · right
    rfl

theorem dParamsOf_sy_unit (x0 y0 z0 x1 y1 z1 : Int) :
    (dParamsOf x0 y0 z0 x1 y1 z1).sy = 1 ∨ (dParamsOf x0 y0 z0 x1 y1 z1).sy = -1 := by
  rw [dParamsOf_sy]
  split
  · left
    rfl
  · right
    rfl

theorem dParamsOf_sz_unit (x0 y0 z0 x1 y1 z1 : Int) :
    (dParamsOf x0 y0 z0 x1 y1 z1).sz = 1 ∨ (dParamsOf x0 y0 z0 x1 y1 z1).sz = -1 := by
  rw [dParamsOf_sz]
  split
  · left
    rfl
  · right
    rfl

theorem dUpdate_reaches (p : DParams) (x0 y0 z0 x1 y1 z1 : Int)
    (hdx0 : 0 ≤ p.dx) (hdx1 : p.dx ≤ p.max_delta)
    (hdy0 : 0 ≤ p.dy) (hdy1 : p.dy ≤ p.max_delta)
    (hdz0 : 0 ≤ p.dz) (hdz1 : p.dz ≤ p.max_delta)
    (hsx : x0 + p.sx * p.dx = x1) (hsy : y0 + p.sy * p.dy = y1)
    (hsz : z0 + p.sz * p.dz = z1) (hmd : 0 ≤ p.max_delta) :
    (dUpdate p)^[p.max_delta.toNat] (dStart x0 y0 z0) = ⟨x1, y1, z1, 0, 0, 0⟩ := by
  rcases eq_or_lt_of_le hmd with h0 | hpos
  · have hx : x1 = x0 := by
      have h := hsx
      rw [show p.dx = 0 by omega, mul_zero] at h
      omega
    have hy : y1 = y0 := by
      have h := hsy
      rw [show p.dy = 0 by omega, mul_zero] at h
      omega
    have hz : z1 = z0 := by
      have h := hsz
      rw [show p.dz = 0 by omega, mul_zero] at h
      omega
    have htn : p.max_delta.toNat = 0 := by omega
    rw [htn, Function.iterate_zero, hx, hy, hz]
    rfl
  · have hx := dUpdate_proj_x p p.max_delta.toNat (dStart x0 y0 z0)
    have hy := dUpdate_proj_y p p.max_delta.toNat (dStart x0 y0 z0)
    have hz := dUpdate_proj_z p p.max_delta.toNat (dStart x0 y0 z0)
    have hsx' : (dStart x0 y0 z0).x = x0 := rfl
    have hsex : (dStart x0 y0 z0).ex = 0 := rfl
    rw [hsx', hsex, dAxis_final p.dx p.max_delta p.sx x0 hpos hdx0 hdx1] at hx
    have hsy' : (dStart x0 y0 z0).y = y0 := rfl
    have hsey : (dStart x0 y0 z0).ey = 0 := rfl
    rw [hsy', hsey, dAxis_final p.dy p.max_delta p.sy y0 hpos hdy0 hdy1] at hy
    have hsz' : (dStart x0 y0 z0).z = z0 := rfl
    have hsez : (dStart x0 y0 z0).ez = 0 := rfl
    rw [hsz', hsez, dAxis_final p.dz p.max_delta p.sz z0 hpos hdz0 hdz1] at hz
    rw [Prod.mk.injEq] at hx hy hz
    calc (dUpdate p)^[p.max_delta.toNat] (dStart x0 y0 z0)
        = ⟨((dUpdate p)^[p.max_delta.toNat] (dStart x0 y0 z0)).x,
            ((dUpdate p)^[p.max_delta.toNat] (dStart x0 y0 z0)).y,
            ((dUpdate p)^[p.max_delta.toNat] (dStart x0 y0 z0)).z,
            ((dUpdate p)^[p.max_delta.toNat] (dStart x0 y0 z0)).ex,
            ((dUpdate p)^[p.max_delta.toNat] (dStart x0 y0 z0)).ey,
            ((dUpdate p)^[p.max_delta.toNat] (dStart x0 y0 z0)).ez⟩ := rfl
      _ = ⟨x1, y1, z1, 0, 0, 0⟩ := by
          rw [hx.1, hy.1, hz.1, hx.2, hy.2, hz.2, hsx, hsy, hsz]

theorem ddaFinal_eq (x0 y0 z0 x1 y1 z1 : Int) :
    ddaFinal x0 y0 z0 x1 y1 z1 = ⟨x1, y1, z1, 0, 0, 0⟩ := by
  unfold ddaFinal
  refine dUpdate_reaches _ x0 y0 z0 x1 y1 z1
    (dParamsOf_dx_nonneg x0 y0 z0 x1 y1 z1) (dParamsOf_dx_le x0 y0 z0 x1 y1 z1)
    (dParamsOf_dy_nonneg x0 y0 z0 x1 y1 z1) (dParamsOf_dy_le x0 y0 z0 x1 y1 z1)
    (dParamsOf_dz_nonneg x0 y0 z0 x1 y1 z1) (dParamsOf_dz_le x0 y0 z0 x1 y1 z1)
    ?_ ?_ ?_ (dParamsOf_md_nonneg x0 y0 z0 x1 y1 z1)
  · have := dParamsOf_sx_dx x0 y0 z0 x1 y1 z1
    linarith
  · have := dParamsOf_sy_dy x0 y0 z0 x1 y1 z1
    linarith
  · have := dParamsOf_sz_dz x0 y0 z0 x1 y1 z1
    linarith

theorem ddaPath_eq (x0 y0 z0 x1 y1 z1 : Int) :
    ddaPath x0 y0 z0 x1 y1 z1 = some (ddaRun x0 y0 z0 x1 y1 z1) := by
  unfold ddaPath
  rw [ddaFinal_eq]
  simp [dVoxel]

theorem dUpdate_x (p : DParams) (st : DState) :
    (dUpdate p st).x =
      if p.max_delta ≤ 2 * (st.ex + p.dx) then st.x + p.sx else st.x := by
  simp only [dUpdate, dAxis]
  split <;> rfl

theorem dUpdate_ex (p : DParams) (st : DState) :
    (dUpdate p st).ex =
      if p.max_delta ≤ 2 * (st.ex + p.dx) then st.ex + p.dx - p.max_delta
      else st.ex + p.dx := by
  simp only [dUpdate, dAxis]
  split <;> rfl

theorem dUpdate_y (p : DParams) (st : DState) :
    (dUpdate p st).y =
      if p.max_delta ≤ 2 * (st.ey + p.dy) then st.y + p.sy else st.y := by
  simp only [dUpdate, dAxis]
  split <;> rfl

theorem dUpdate_ey (p : DParams) (st : DState) :
    (dUpdate p st).ey =
      if p.max_delta ≤ 2 * (st.ey + p.dy) then st.ey + p.dy - p.max_delta
      else st.ey + p.dy := by
  simp only [dUpdate, dAxis]
  split <;> rfl

theorem dUpdate_z (p : DParams) (st : DState) :
    (dUpdate p st).z =
      if p.max_delta ≤ 2 * (st.ez + p.dz) then st.z + p.sz else st.z := by
  simp only [dUpdate, dAxis]
  split <;> rfl

theorem dUpdate_ez (p : DParams) (st : DState) :
    (dUpdate p st).ez =
      if p.max_delta ≤ 2 * (st.ez + p.dz) then st.ez + p.dz - p.max_delta
      else st.ez + p.dz := by
  simp only [dUpdate, dAxis]
  split <;> rfl

/-- The invariant that keeps every DDA accumulator inside
`[-max_delta/2, max_delta/2)` (stated doubled to stay in integers). -/
def dInv (p : DParams) (st : DState) : Prop :=
  (-p.max_delta ≤ 2 * st.ex ∧ 2 * st.ex < p.max_delta) ∧
    (-p.max_delta ≤ 2 * st.ey ∧ 2 * st.ey < p.max_delta) ∧
    (-p.max_delta ≤ 2 * st.ez ∧ 2 * st.ez < p.max_delta)

theorem dInv_step (p : DParams) (hdx0 : 0 ≤ p.dx) (hdx1 : p.dx ≤ p.max_delta)
    (hdy0 : 0 ≤ p.dy) (hdy1 : p.dy ≤ p.max_delta)
    (hdz0 : 0 ≤ p.dz) (hdz1 : p.dz ≤ p.max_delta)
    (st : DState) (h : dInv p st) : dInv p (dUpdate p st) := by
  obtain ⟨⟨h1, h2⟩, ⟨h3, h4⟩, ⟨h5, h6⟩⟩ := h
  refine ⟨?_, ?_, ?_⟩
  · rw [dUpdate_ex]
    split <;> omega
  · rw [dUpdate_ey]
    split <;> omega
  · rw [dUpdate_ez]
    split <;> omega

theorem dUpdate_voxel_ne (p : DParams)
    (hdom : p.dx = p.max_delta ∨ p.dy = p.max_delta ∨ p.dz = p.max_delta)
    (hsx : p.sx = 1 ∨ p.sx = -1) (hsy : p.sy = 1 ∨ p.sy = -1)
    (hsz : p.sz = 1 ∨ p.sz = -1)
    (st : DState) (h : dInv p st) : dVoxel st ≠ dVoxel (dUpdate p st) := by
  obtain ⟨⟨h1, h2⟩, ⟨h3, h4⟩, ⟨h5, h6⟩⟩ := h
  rcases hdom with hd | hd | hd
  · have hx : (dUpdate p st).x = st.x + p.sx := by
      rw [dUpdate_x, if_pos (by omega)]
    intro he
    have := congrArg V3i.x he
    simp only [dVoxel] at this
    rw [hx] at this
    omega
  · have hy : (dUpdate p st).y = st.y + p.sy := by
      rw [dUpdate_y, if_pos (by omega)]
    intro he
    have := congrArg V3i.y he
    simp only [dVoxel] at this
    rw [hy] at this
    omega
  · have hz : (dUpdate p st).z = st.z + p.sz := by
      rw [dUpdate_z, if_pos (by omega)]
    intro he
    have := congrArg V3i.z he
    simp only [dVoxel] at this
    rw [hz] at this
    omega

theorem dUpdate_voxel_cheb (p : DParams)
    (hsx : p.sx = 1 ∨ p.sx = -1) (hsy : p.sy = 1 ∨ p.sy = -1)
    (hsz : p.sz = 1 ∨ p.sz = -1)
    (st : DState) : chebAdj (dVoxel st) (dVoxel (dUpdate p st)) := by
  refine ⟨?_, ?_, ?_⟩
  · show |(dUpdate p st).x - st.x| ≤ 1
    rw [dUpdate_x]
    split
    · rcases hsx with h | h <;> rw [h] <;> simp
    · simp
  · show |(dUpdate p st).y - st.y| ≤ 1
    rw [dUpdate_y]
    split
    · rcases hsy with h | h <;> rw [h] <;> simp
    · simp
  · show |(dUpdate p st).z - st.z| ≤ 1
    rw [dUpdate_z]
    split
    · rcases hsz with h | h <;> rw [h] <;> simp
    · simp

theorem ddaRun_chain_ne (x0 y0 z0 x1 y1 z1 : Int) :
    List.Chain' (fun a b => a ≠ b) (ddaRun x0 y0 z0 x1 y1 z1) := by
  rcases eq_or_lt_of_le (dParamsOf_md_nonneg x0 y0 z0 x1 y1 z1) with h0 | hpos
  · have htn : (dParamsOf x0 y0 z0 x1 y1 z1).max_delta.toNat = 0 := by omega
    unfold ddaRun
    rw [htn]
    simp [iterPath]
  · unfold ddaRun
    refine iterPath_chain _ dVoxel _ (dInv (dParamsOf x0 y0 z0 x1 y1 z1))
      (fun st h => dInv_step _
        (dParamsOf_dx_nonneg x0 y0 z0 x1 y1 z1) (dParamsOf_dx_le x0 y0 z0 x1 y1 z1)
        (dParamsOf_dy_nonneg x0 y0 z0 x1 y1 z1) (dParamsOf_dy_le x0 y0 z0 x1 y1 z1)
        (dParamsOf_dz_nonneg x0 y0 z0 x1 y1 z1) (dParamsOf_dz_le x0 y0 z0 x1 y1 z1)
        st h)
      (fun st h => dUpdate_voxel_ne _ (dParamsOf_dom x0 y0 z0 x1 y1 z1)
        (dParamsOf_sx_unit x0 y0 z0 x1 y1 z1) (dParamsOf_sy_unit x0 y0 z0 x1 y1 z1)
        (dParamsOf_sz_unit x0 y0 z0 x1 y1 z1) st h) _ _ ?_
    refine ⟨⟨?_, ?_⟩, ⟨?_, ?_⟩, ⟨?_, ?_⟩⟩ <;> simp only [dStart] <;> omega

theorem ddaRun_chain_cheb (x0 y0 z0 x1 y1 z1 : Int) :
    List.Chain' chebAdj (ddaRun x0 y0 z0 x1 y1 z1) := by
  unfold ddaRun
  refine iterPath_chain _ dVoxel _ (fun _ => True) (fun _ _ => trivial)
    (fun st _ => dUpdate_voxel_cheb _
      (dParamsOf_sx_unit x0 y0 z0 x1 y1 z1) (dParamsOf_sy_unit x0 y0 z0 x1 y1 z1)
      (dParamsOf_sz_unit x0 y0 z0 x1 y1 z1) st) _ _ trivial

theorem ddaRun_head (x0 y0 z0 x1 y1 z1 : Int) :
    (ddaRun x0 y0 z0 x1 y1 z1).head? = some ⟨x0, y0, z0⟩ := by
  unfold ddaRun
  rw [iterPath_head]
  rfl

theorem ddaRun_last (x0 y0 z0 x1 y1 z1 : Int) :
    (ddaRun x0 y0 z0 x1 y1 z1).getLast? = some ⟨x1, y1, z1⟩ := by
  unfold ddaRun
  rw [iterPath_getLast]
  have h : (dUpdate (dParamsOf x0 y0 z0 x1 y1 z1))^[(dParamsOf x0 y0 z0 x1 y1 z1).max_delta.toNat]
      (dStart x0 y0 z0) = ddaFinal x0 y0 z0 x1 y1 z1 := rfl
  rw [h, ddaFinal_eq]
  rfl

theorem dParamsOf_md_max (x0 y0 z0 x1 y1 z1 : Int) :
    (dParamsOf x0 y0 z0 x1 y1 z1).max_delta =
      max (max |x1 - x0| |y1 - y0|) |z1 - z0| := by
  rw [dParamsOf_md, dParamsOf_dx, dParamsOf_dy, dParamsOf_dz]
  rw [max_def, max_def]
  split <;> split <;> split <;> split <;> split <;>
    first
      | rfl
      | (rcases abs_cases (x1 - x0) with ⟨ha, _⟩ | ⟨ha, _⟩ <;>
          rcases abs_cases (y1 - y0) with ⟨hb, _⟩ | ⟨hb, _⟩ <;>
          rcases abs_cases (z1 - z0) with ⟨hc, _⟩ | ⟨hc, _⟩ <;> omega)

theorem ddaRun_length (x0 y0 z0 x1 y1 z1 : Int) :
    ((ddaRun x0 y0 z0 x1 y1 z1).length : Int) =
      max (max |x1 - x0| |y1 - y0|) |z1 - z0| + 1 := by
  unfold ddaRun
  rw [iterPath_length]
  push_cast
  rw [Int.toNat_of_nonneg (dParamsOf_md_nonneg x0 y0 z0 x1 y1 z1)]
  rw [dParamsOf_md_max]

theorem ddaRun_single (c1 c2 c3 : Int) :
    ddaRun c1 c2 c3 c1 c2 c3 = [⟨c1, c2, c3⟩] := by
  unfold ddaRun
  have h : (dParamsOf c1 c2 c3 c1 c2 c3).max_delta = 0 := by
    rw [dParamsOf_md_max]
    simp
  rw [h]
  rfl

theorem VoxelCastingDDA_eq (rs re : V3f) (s : Fp) :
    VoxelCastingDDA rs re s =
      some (ddaRun (voxelIndex rs s).x (voxelIndex rs s).y (voxelIndex rs s).z
        (voxelIndex re s).x (voxelIndex re s).y (voxelIndex re s).z) := by
  show ddaPath ((rs.x / s).floor) ((rs.y / s).floor) ((rs.z / s).floor)
      ((re.x / s).floor) ((re.y / s).floor) ((re.z / s).floor) = _
  rw [ddaPath_eq]
  rfl

/-!
`VoxelCasting` (`src/common/math.cc:37-130`): the Amanatides–Woo parametric
traversal.  The source comments it with `BUG( infinite loop ) not
recommended to use`; its `while` loop is modelled with explicit fuel.
-/

/-- The loop-invariant parameters of `VoxelCasting`'s `while` loop: the end
voxel, the per-axis unit steps and the per-axis `tDelta` increments. -/
structure VCParams where
  endv : V3i
  step_x : Int
  step_y : Int
  step_z : Int
  tDeltaX : Fp
  tDeltaY : Fp
  tDeltaZ : Fp
deriving DecidableEq, Repr

/-- The mutable loop state of `VoxelCasting`: `current_voxel` and the three
`tMax` values. -/
structure VCState where
  cur : V3i
  tMaxX : Fp
  tMaxY : Fp
  tMaxZ : Fp
deriving DecidableEq, Repr

/-- One iteration of `VoxelCasting`'s `while` body: step the axis with the
smallest `tMax` (ties broken exactly as the nested `if`s of the source do)
and advance its `tMax` by its `tDelta`. -/
def vcStep (p : VCParams) (st : VCState) : VCState :=
  if st.tMaxX < st.tMaxY then
    if st.tMaxX < st.tMaxZ then
      ⟨⟨st.cur.x + p.step_x, st.cur.y, st.cur.z⟩, st.tMaxX + p.tDeltaX, st.tMaxY, st.tMaxZ⟩
    else
      ⟨⟨st.cur.x, st.cur.y, st.cur.z + p.step_z⟩, st.tMaxX, st.tMaxY, st.tMaxZ + p.tDeltaZ⟩
  else
    if st.tMaxY < st.tMaxZ then
      ⟨⟨st.cur.x, st.cur.y + p.step_y, st.cur.z⟩, st.tMaxX, st.tMaxY + p.tDeltaY, st.tMaxZ⟩
    else
      ⟨⟨st.cur.x, st.cur.y, st.cur.z + p.step_z⟩, st.tMaxX, st.tMaxY, st.tMaxZ + p.tDeltaZ⟩

/-- `while (end_voxel != current_voxel) { step; push_back(current_voxel); }`
with explicit fuel: returns the list of voxels pushed by the loop, or
`none` when the fuel is exhausted before the loop condition fails. -/
def vcLoop (p : VCParams) : Nat → VCState → Option (List V3i)
  | 0, st => if st.cur = p.endv then some [] else none
  | n + 1, st =>
    if st.cur = p.endv then some []
    else
      match vcLoop p n (vcStep p st) with
      | none => none
      | some l => some ((vcStep p st).cur :: l)

/-- Everything `VoxelCasting` computes before its `while` loop: start/end
voxels, steps, boundaries, `tMax`/`tDelta` values, the negative-direction
`diff` correction, and the voxels pushed before the loop (`pre`). -/
structure VCInit where
  start_voxel : V3i
  end_voxel : V3i
  params : VCParams
  st0 : VCState
  pre : List V3i
deriving DecidableEq, Repr

/-- The pre-loop part of `VoxelCasting` (`src/common/math.cc:42-107`),
mirroring the source line by line. -/
def vcInit (ray_start ray_end : V3f) (step_size : Fp) : VCInit :=
  let ray_x := ray_end.x - ray_start.x
  let ray_y := ray_end.y - ray_start.y
  let ray_z := ray_end.z - ray_start.z
  let start_voxel : V3i := ⟨(ray_start.x / step_size).floor,
    (ray_start.y / step_size).floor, (ray_start.z / step_size).floor⟩
  let end_voxel : V3i := ⟨(ray_end.x / step_size).floor,
    (ray_end.y / step_size).floor, (ray_end.z / step_size).floor⟩
  let step_x : Int := if (0 : Fp) ≤ ray_x then 1 else -1
  let step_y : Int := if (0 : Fp) ≤ ray_y then 1 else -1
  let step_z : Int := if (0 : Fp) ≤ ray_z then 1 else -1
  let next_voxel_boundary_x := Fp.ofInt (start_voxel.x + step_x) * step_size
  let next_voxel_boundary_y := Fp.ofInt (start_voxel.y + step_y) * step_size
  let next_voxel_boundary_z := Fp.ofInt (start_voxel.z + step_z) * step_size
  let tMaxX := if start_voxel.x ≠ end_voxel.x
    then (next_voxel_boundary_x - ray_start.x) / ray_x else fltMax
  let tMaxY := if start_voxel.y ≠ end_voxel.y
    then (next_voxel_boundary_y - ray_start.y) / ray_y else fltMax
  let tMaxZ := if start_voxel.z ≠ end_voxel.z
    then (next_voxel_boundary_z - ray_start.z) / ray_z else fltMax
  let tDeltaX := if start_voxel.x ≠ end_voxel.x
    then step_size / ray_x * Fp.ofInt step_x else fltMax
  let tDeltaY := if start_voxel.y ≠ end_voxel.y
    then step_size / ray_y * Fp.ofInt step_y else fltMax
  let tDeltaZ := if start_voxel.z ≠ end_voxel.z
    then step_size / ray_z * Fp.ofInt step_z else fltMax
  let diff_x : Int := if start_voxel.x ≠ end_voxel.x ∧ ray_x < 0 then -1 else 0
  let diff_y : Int := if start_voxel.y ≠ end_voxel.y ∧ ray_y < 0 then -1 else 0
  let diff_z : Int := if start_voxel.z ≠ end_voxel.z ∧ ray_z < 0 then -1 else 0
  let current_voxel : V3i := ⟨start_voxel.x + diff_x, start_voxel.y + diff_y,
    start_voxel.z + diff_z⟩
  { start_voxel := start_voxel
    end_voxel := end_voxel
    params := ⟨end_voxel, step_x, step_y, step_z, tDeltaX, tDeltaY, tDeltaZ⟩
    st0 := ⟨if ¬(diff_x = 0 ∧ diff_y = 0 ∧ diff_z = 0) then current_voxel else start_voxel,
      tMaxX, tMaxY, tMaxZ⟩
    pre := if ¬(diff_x = 0 ∧ diff_y = 0 ∧ diff_z = 0) then [start_voxel, current_voxel]
      else [start_voxel] }

/-- `VoxelCasting` (`src/common/math.cc:37-130`) with explicit loop fuel:
early single-voxel return when start and end voxels coincide, otherwise the
pre-loop pushes followed by the `while` loop (`none` = the loop did not
finish within `fuel` iterations). -/
def VoxelCasting (fuel : Nat) (ray_start ray_end : V3f) (step_size : Fp) :
    Option (List V3i) :=
  let I := vcInit ray_start ray_end step_size
  if I.start_voxel = I.end_voxel then some [I.start_voxel]
  else
    match vcLoop I.params fuel I.st0 with
    | none => none
    | some l => some (I.pre ++ l)

theorem vcStep_cases (p : VCParams) (st : VCState) :
    (vcStep p st).cur = ⟨st.cur.x + p.step_x, st.cur.y, st.cur.z⟩ ∨
      (vcStep p st).cur = ⟨st.cur.x, st.cur.y + p.step_y, st.cur.z⟩ ∨
      (vcStep p st).cur = ⟨st.cur.x, st.cur.y, st.cur.z + p.step_z⟩ := by
  unfold vcStep
  split
  · split
    · left
      rfl
    · right
      right
      rfl
  · split
    · right
      left
      rfl
    · right
      right
      rfl

theorem vcLoop_last (p : VCParams) :
    ∀ (n : Nat) (st : VCState) (l : List V3i),
      vcLoop p n st = some l → (st.cur :: l).getLast? = some p.endv := by
  intro n
  induction n with
  | zero =>
    intro st l h
    unfold vcLoop at h
    split at h
    · next he =>
      cases h
      simp [he]
    · cases h
  | succ n ih =>
    intro st l h
    unfold vcLoop at h
    split at h
    · next he =>
      cases h
      simp [he]
    · cases hm : vcLoop p n (vcStep p st) with
      | none =>
        rw [hm] at h
        cases h
      | some l2 =>
        rw [hm] at h
        cases h
        have h2 := ih (vcStep p st) l2 hm
        rw [List.getLast?_cons_cons]
        exact h2

theorem vcLoop_chain (p : VCParams) (R : V3i → V3i → Prop)
    (hR : ∀ st : VCState, R st.cur (vcStep p st).cur) :
    ∀ (n : Nat) (st : VCState) (l : List V3i),
      vcLoop p n st = some l → List.Chain' R (st.cur :: l) := by
  intro n
  induction n with
  | zero =>
    intro st l h
    unfold vcLoop at h
    split at h
    · cases h
      simp
    · cases h
  | succ n ih =>
    intro st l h
    unfold vcLoop at h
    split at h
    · cases h
      simp
    · cases hm : vcLoop p n (vcStep p st) with
      | none =>
        rw [hm] at h
        cases h
      | some l2 =>
        rw [hm] at h
        cases h
        rw [List.chain'_cons]
        exact ⟨hR st, ih (vcStep p st) l2 hm⟩

theorem vcLoop_mono (p : VCParams) :
    ∀ (n : Nat) (st : VCState) (l : List V3i),
      vcLoop p n st = some l → vcLoop p (n + 1) st = some l := by
  intro n
  induction n with
  | zero =>
    intro st l h
    unfold vcLoop at h
    split at h
    · next he =>
      cases h
      unfold vcLoop
      rw [if_pos he]
    · cases h
  | succ n ih =>
    intro st l h
    unfold vcLoop at h
    split at h
    · next he =>
      cases h
      show vcLoop p (n + 2) st = some []
      unfold vcLoop
      rw [if_pos he]
    · next he =>
      cases hm : vcLoop p n (vcStep p st) with
      | none =>
        rw [hm] at h
        cases h
      | some l2 =>
        rw [hm] at h
        cases h
        have h2 := ih (vcStep p st) l2 hm
        show vcLoop p (n + 2) st = _
        unfold vcLoop
        rw [if_neg he, h2]

theorem vcLoop_never (p : VCParams) (hsy : p.step_y ≤ 0) (hey : -2 < p.endv.y) :
    ∀ (n : Nat) (st : VCState), st.cur.y ≤ -2 → vcLoop p n st = none := by
  intro n
  induction n with
  | zero =>
    intro st hy
    unfold vcLoop
    rw [if_neg]
    intro he
    rw [he] at hy
    omega
  | succ n ih =>
    intro st hy
    unfold vcLoop
    rw [if_neg]
    · have hy2 : (vcStep p st).cur.y ≤ -2 := by
        rcases vcStep_cases p st with h | h | h <;> rw [h] <;> simp <;> omega
      rw [ih (vcStep p st) hy2]
    · intro he
      rw [he] at hy
      omega

theorem vcInit_start (rs re : V3f) (s : Fp) :
    (vcInit rs re s).start_voxel = voxelIndex rs s := rfl

theorem vcInit_end (rs re : V3f) (s : Fp) :
    (vcInit rs re s).end_voxel = voxelIndex re s := rfl

theorem vcInit_endv (rs re : V3f) (s : Fp) :
    (vcInit rs re s).params.endv = voxelIndex re s := rfl

theorem vcInit_step_x (rs re : V3f) (s : Fp) :
    (vcInit rs re s).params.step_x = 1 ∨ (vcInit rs re s).params.step_x = -1 := by
  simp only [vcInit]
  split
  · left
    rfl
  · right
    rfl

theorem vcInit_step_y (rs re : V3f) (s : Fp) :
    (vcInit rs re s).params.step_y = 1 ∨ (vcInit rs re s).params.step_y = -1 := by
  simp only [vcInit]
  split
  · left
    rfl
  · right
    rfl

theorem vcInit_step_z (rs re : V3f) (s : Fp) :
    (vcInit rs re s).params.step_z = 1 ∨ (vcInit rs re s).params.step_z = -1 := by
  simp only [vcInit]
  split
  · left
    rfl
  · right
    rfl

theorem vc_pre_helper (sv : V3i) (dx dy dz : Int)
    (hdx : dx = 0 ∨ dx = -1) (hdy : dy = 0 ∨ dy = -1) (hdz : dz = 0 ∨ dz = -1) :
    ((if ¬(dx = 0 ∧ dy = 0 ∧ dz = 0)
        then [sv, ⟨sv.x + dx, sv.y + dy, sv.z + dz⟩] else [sv]) = [sv] ∧
      (if ¬(dx = 0 ∧ dy = 0 ∧ dz = 0)
        then (⟨sv.x + dx, sv.y + dy, sv.z + dz⟩ : V3i) else sv) = sv) ∨
    ((if ¬(dx = 0 ∧ dy = 0 ∧ dz = 0)
        then [sv, ⟨sv.x + dx, sv.y + dy, sv.z + dz⟩] else [sv]) =
        [sv, (if ¬(dx = 0 ∧ dy = 0 ∧ dz = 0)
          then (⟨sv.x + dx, sv.y + dy, sv.z + dz⟩ : V3i) else sv)] ∧
      (if ¬(dx = 0 ∧ dy = 0 ∧ dz = 0)
        then (⟨sv.x + dx, sv.y + dy, sv.z + dz⟩ : V3i) else sv) ≠ sv ∧
      chebAdj sv (if ¬(dx = 0 ∧ dy = 0 ∧ dz = 0)
        then (⟨sv.x + dx, sv.y + dy, sv.z + dz⟩ : V3i) else sv)) := by
  by_cases h : dx = 0 ∧ dy = 0 ∧ dz = 0
  · left
    rw [if_neg (by simpa using h), if_neg (by simpa using h)]
    exact ⟨rfl, rfl⟩
  · right
    rw [if_pos h, if_pos h]
    refine ⟨rfl, ?_, ?_, ?_, ?_⟩
    · intro he
      apply h
      have hex := congrArg V3i.x he
      have hey := congrArg V3i.y he
      have hez := congrArg V3i.z he
      simp only at hex hey hez
      exact ⟨by omega, by omega, by omega⟩
    · show |sv.x + dx - sv.x| ≤ 1
      rcases hdx with h2 | h2 <;> rw [h2] <;> simp
    · show |sv.y + dy - sv.y| ≤ 1
      rcases hdy with h2 | h2 <;> rw [h2] <;> simp
    · show |sv.z + dz - sv.z| ≤ 1
      rcases hdz with h2 | h2 <;> rw [h2] <;> simp

theorem vcInit_pre (rs re : V3f) (s : Fp) :
    ((vcInit rs re s).pre = [(vcInit rs re s).start_voxel] ∧
      (vcInit rs re s).st0.cur = (vcInit rs re s).start_voxel) ∨
    ((vcInit rs re s).pre = [(vcInit rs re s).start_voxel, (vcInit rs re s).st0.cur] ∧
      (vcInit rs re s).st0.cur ≠ (vcInit rs re s).start_voxel ∧
      chebAdj (vcInit rs re s).start_voxel (vcInit rs re s).st0.cur) := by
  exact vc_pre_helper (voxelIndex rs s)
    (if (voxelIndex rs s).x ≠ (voxelIndex re s).x ∧ re.x - rs.x < 0 then -1 else 0)
    (if (voxelIndex rs s).y ≠ (voxelIndex re s).y ∧ re.y - rs.y < 0 then -1 else 0)
    (if (voxelIndex rs s).z ≠ (voxelIndex re s).z ∧ re.z - rs.z < 0 then -1 else 0)
    (by split
        · right
          rfl
        · left
          rfl)
    (by split
        · right
          rfl
        · left
          rfl)
    (by split
        · right
          rfl
        · left
          rfl)

theorem VoxelCasting_cases (fuel : Nat) (rs re : V3f) (s : Fp) (l : List V3i)
    (h : VoxelCasting fuel rs re s = some l) :
    (voxelIndex rs s = voxelIndex re s ∧ l = [voxelIndex rs s]) ∨
    (voxelIndex rs s ≠ voxelIndex re s ∧
      ∃ tail, vcLoop (vcInit rs re s).params fuel (vcInit rs re s).st0 = some tail ∧
        l = (vcInit rs re s).pre ++ tail) := by
  unfold VoxelCasting at h
  simp only at h
  split at h
  · next he =>
    cases h
    exact Or.inl ⟨he, rfl⟩
  · next he =>
    cases hm : vcLoop (vcInit rs re s).params fuel (vcInit rs re s).st0 with
    | none =>
      rw [hm] at h
      cases h
    | some tail =>
      rw [hm] at h
      cases h
      exact Or.inr ⟨he, tail, rfl, rfl⟩

theorem VoxelCasting_mono (fuel : Nat) (rs re : V3f) (s : Fp) (l : List V3i)
    (h : VoxelCasting fuel rs re s = some l) :
    VoxelCasting (fuel + 1) rs re s = some l := by
  unfold VoxelCasting at h ⊢
  simp only at h ⊢
  split at h
  · next he =>
    rw [if_pos he]
    exact h
  · next he =>
    rw [if_neg he]
    cases hm : vcLoop (vcInit rs re s).params fuel (vcInit rs re s).st0 with
    | none =>
      rw [hm] at h
      cases h
    | some tail =>
      rw [hm] at h
      rw [vcLoop_mono _ fuel _ tail hm]
      exact h

/-!
NaN inputs.  The guards of `VoxelCastingBresenham` and `VoxelCastingDDA`
apply `std::isnan` to the already-rounded `int` indices, where for a NaN
coordinate `std::floor` returns NaN and `std::lround` returns an
unspecified integer.  The model below keeps that unspecified integer as a
parameter `nanVal` and represents a NaN coordinate as `none`.
-/

/-- A 3D point whose coordinates may be NaN (`none`). -/
structure V3fn where
  x : Option Fp
  y : Option Fp
  z : Option Fp
deriving DecidableEq, Repr

/-- `lround(floor(c / step_size))` for a possibly-NaN coordinate: NaN
propagates through the division and the floor, and `std::lround` then
returns an unspecified integer, modelled by the parameter `nanVal`. -/
def nanFloorIdx (nanVal : Int) (c : Option Fp) (step_size : Fp) : Int :=
  match c with
  | none => nanVal
  | some q => (q / step_size).floor

/-- `VoxelCastingBresenham` on possibly-NaN inputs: identical to
`VoxelCastingBresenham` except that the six index roundings go through
`nanFloorIdx`. -/
def VoxelCastingBresenhamNan (nanVal : Int) (ray_start ray_end : V3fn)
    (step_size : Fp) : Option (List V3i) :=
  let x0 := nanFloorIdx nanVal ray_start.x step_size
  let y0 := nanFloorIdx nanVal ray_start.y step_size
  let z0 := nanFloorIdx nanVal ray_start.z step_size
  if isnanInt x0 || isnanInt y0 || isnanInt z0 then some [] else
  let x1 := nanFloorIdx nanVal ray_end.x step_size
  let y1 := nanFloorIdx nanVal ray_end.y step_size
  let z1 := nanFloorIdx nanVal ray_end.z step_size
  if isnanInt x1 || isnanInt y1 || isnanInt z1 then some [] else
  bresenhamPath x0 y0 z0 x1 y1 z1

/-- `VoxelCastingDDA` on possibly-NaN inputs: identical to
`VoxelCastingDDA` except that the six index roundings go through
`nanFloorIdx`. -/
def VoxelCastingDDANan (nanVal : Int) (ray_start ray_end : V3fn)
    (step_size : Fp) : Option (List V3i) :=
  let x0 := nanFloorIdx nanVal ray_start.x step_size
  let y0 := nanFloorIdx nanVal ray_start.y step_size
  let z0 := nanFloorIdx nanVal ray_start.z step_size
  if isnanInt x0 || isnanInt y0 || isnanInt z0 then some [] else
  let x1 := nanFloorIdx nanVal ray_end.x step_size
  let y1 := nanFloorIdx nanVal ray_end.y step_size
  let z1 := nanFloorIdx nanVal ray_end.z step_size
  if isnanInt x1 || isnanInt y1 || isnanInt z1 then some [] else
  ddaPath x0 y0 z0 x1 y1 z1

theorem VoxelCastingBresenhamNan_eq (nanVal : Int) (rs re : V3fn) (s : Fp) :
    VoxelCastingBresenhamNan nanVal rs re s =
      some (bresenhamRun (nanFloorIdx nanVal rs.x s) (nanFloorIdx nanVal rs.y s)
        (nanFloorIdx nanVal rs.z s) (nanFloorIdx nanVal re.x s)
        (nanFloorIdx nanVal re.y s) (nanFloorIdx nanVal re.z s)) := by
  show bresenhamPath _ _ _ _ _ _ = _
  rw [bresenhamPath_eq]

theorem VoxelCastingDDANan_eq (nanVal : Int) (rs re : V3fn) (s : Fp) :
    VoxelCastingDDANan nanVal rs re s =
      some (ddaRun (nanFloorIdx nanVal rs.x s) (nanFloorIdx nanVal rs.y s)
        (nanFloorIdx nanVal rs.z s) (nanFloorIdx nanVal re.x s)
        (nanFloorIdx nanVal re.y s) (nanFloorIdx nanVal re.z s)) := by
  show ddaPath _ _ _ _ _ _ = _
  rw [ddaPath_eq]

theorem bresenhamRun_ne_nil (x0 y0 z0 x1 y1 z1 : Int) :
    bresenhamRun x0 y0 z0 x1 y1 z1 ≠ [] := iterPath_ne_nil _ _ _ _

theorem ddaRun_ne_nil (x0 y0 z0 x1 y1 z1 : Int) :
    ddaRun x0 y0 z0 x1 y1 z1 ≠ [] := iterPath_ne_nil _ _ _ _

theorem head_append_of (pre : List V3i) (v : V3i) (tail : List V3i)
    (h : pre.head? = some v) : (pre ++ tail).head? = some v := by
  cases pre with
  | nil => cases h
  | cons a l =>
    cases h
    rfl

theorem getLast_append_of (pre : List V3i) (cur : V3i) (tail : List V3i) (e : V3i)
    (hpre : pre.getLast? = some cur) (h : (cur :: tail).getLast? = some e) :
    (pre ++ tail).getLast? = some e := by
  cases tail with
  | nil =>
    have hce : cur = e := by simpa using h
    rw [List.append_nil, hpre, hce]
  | cons b bs =>
    rw [List.getLast?_append_cons]
    rw [List.getLast?_cons_cons] at h
    exact h

theorem vcInit_pre_head (rs re : V3f) (s : Fp) :
    (vcInit rs re s).pre.head? = some (voxelIndex rs s) := by
  rcases vcInit_pre rs re s with ⟨hpre, _⟩ | ⟨hpre, _, _⟩ <;> rw [hpre] <;> rfl

theorem vcInit_pre_last (rs re : V3f) (s : Fp) :
    (vcInit rs re s).pre.getLast? = some ((vcInit rs re s).st0.cur) := by
  rcases vcInit_pre rs re s with ⟨hpre, hcur⟩ | ⟨hpre, _, _⟩
  · rw [hpre, hcur]
    simp
  · rw [hpre, List.getLast?_cons_cons]
    simp

/-- C1: for every ray with step_size > 0 on which each algorithm terminates
without aborting, all three traversal functions return a path whose first
element is `VoxelIndex(ray_start)` and whose last element is
`VoxelIndex(ray_end)`. -/
theorem claim_C1_first_last (rs re : V3f) (s : Fp) (fuel : Nat)
    (p1 p2 p3 : List V3i) (hs : s.Pos)
    (h1 : VoxelCasting fuel rs re s = some p1)
    (h2 : VoxelCastingBresenham rs re s = some p2)
    (h3 : VoxelCastingDDA rs re s = some p3) :
    (p1.head? = some (voxelIndex rs s) ∧ p1.getLast? = some (voxelIndex re s)) ∧
      (p2.head? = some (voxelIndex rs s) ∧ p2.getLast? = some (voxelIndex re s)) ∧
      (p3.head? = some (voxelIndex rs s) ∧ p3.getLast? = some (voxelIndex re s)) := by
  refine ⟨?_, ?_, ?_⟩
  · rcases VoxelCasting_cases fuel rs re s p1 h1 with ⟨hse, hl⟩ | ⟨hne, tail, hm, hl⟩
    · subst hl
      exact ⟨rfl, by rw [hse]; simp⟩
    · subst hl
      constructor
      · exact head_append_of _ _ _ (vcInit_pre_head rs re s)
      · refine getLast_append_of _ ((vcInit rs re s).st0.cur) tail _
          (vcInit_pre_last rs re s) ?_
        have hlast := vcLoop_last _ fuel _ tail hm
        rw [vcInit_endv] at hlast
        exact hlast
  · have he := VoxelCastingBresenham_eq rs re s
    rw [h2] at he
    have hp := Option.some.inj he
    subst hp
    exact ⟨by rw [bresenhamRun_head], by rw [bresenhamRun_last]⟩
  · have he := VoxelCastingDDA_eq rs re s
    rw [h3] at he
    have hp := Option.some.inj he
    subst hp
    exact ⟨by rw [ddaRun_head], by rw [ddaRun_last]⟩

set_option maxRecDepth 1000000 in
theorem claim_C1_witness :
    Fp.Pos ⟨1, 1⟩ ∧
      (([⟨0,0,0⟩, ⟨1,0,0⟩, ⟨2,0,0⟩, ⟨3,0,0⟩] : List V3i).head? =
        some (voxelIndex ⟨⟨0,1⟩, ⟨0,1⟩, ⟨0,1⟩⟩ ⟨1, 1⟩) ∧
       ([⟨0,0,0⟩, ⟨1,0,0⟩, ⟨2,0,0⟩, ⟨3,0,0⟩] : List V3i).getLast? =
        some (voxelIndex ⟨⟨3,1⟩, ⟨0,1⟩, ⟨0,1⟩⟩ ⟨1, 1⟩)) :=
  ⟨by decide,
    (claim_C1_first_last ⟨⟨0,1⟩, ⟨0,1⟩, ⟨0,1⟩⟩ ⟨⟨3,1⟩, ⟨0,1⟩, ⟨0,1⟩⟩ ⟨1, 1⟩ 3
      [⟨0,0,0⟩, ⟨1,0,0⟩, ⟨2,0,0⟩, ⟨3,0,0⟩] [⟨0,0,0⟩, ⟨1,0,0⟩, ⟨2,0,0⟩, ⟨3,0,0⟩]
      [⟨0,0,0⟩, ⟨1,0,0⟩, ⟨2,0,0⟩, ⟨3,0,0⟩]
      (by decide) (by decide) (by decide) (by decide)).1⟩

/-- C2: for every input with step_size > 0 the final voxel computed by
`VoxelCastingBresenham` and by `VoxelCastingDDA` equals the end voxel
index, so the trailing `CHECK_EQ` assertions never fire (the result is
`some`, never the `none` that models the fatal assertion). -/
theorem claim_C2_check_never_fires (rs re : V3f) (s : Fp) (hs : s.Pos) :
    (∃ p, VoxelCastingBresenham rs re s = some p ∧
      p.getLast? = some (voxelIndex re s)) ∧
    (∃ p, VoxelCastingDDA rs re s = some p ∧
      p.getLast? = some (voxelIndex re s)) := by
  constructor
  · exact ⟨_, VoxelCastingBresenham_eq rs re s, by rw [bresenhamRun_last]⟩
  · exact ⟨_, VoxelCastingDDA_eq rs re s, by rw [ddaRun_last]⟩

theorem claim_C2_witness :
    Fp.Pos ⟨1, 1⟩ ∧
      (∃ p, VoxelCastingBresenham ⟨⟨0,1⟩, ⟨0,1⟩, ⟨0,1⟩⟩ ⟨⟨2,1⟩, ⟨1,1⟩, ⟨5,1⟩⟩ ⟨1, 1⟩ =
          some p ∧ p.getLast? = some (voxelIndex ⟨⟨2,1⟩, ⟨1,1⟩, ⟨5,1⟩⟩ ⟨1, 1⟩)) :=
  ⟨by decide,
    (claim_C2_check_never_fires ⟨⟨0,1⟩, ⟨0,1⟩, ⟨0,1⟩⟩ ⟨⟨2,1⟩, ⟨1,1⟩, ⟨5,1⟩⟩ ⟨1, 1⟩
      (by decide)).1⟩

/-- C3 (documents the code defect): on an input with a NaN coordinate the
claim says both integer rasterisers return an empty path, but the
`std::isnan` guards are applied to already-rounded `int` indices and never
fire, so for every unspecified value the NaN-to-int conversion may take,
both functions return a non-empty path. -/
theorem claim_C3_nan_guard_dead (nanVal : Int) (rs re : V3fn) (s : Fp)
    (hnan : rs.x = none ∨ rs.y = none ∨ rs.z = none ∨
      re.x = none ∨ re.y = none ∨ re.z = none) :
    (∃ p, VoxelCastingBresenhamNan nanVal rs re s = some p ∧ p ≠ []) ∧
      (∃ p, VoxelCastingDDANan nanVal rs re s = some p ∧ p ≠ []) := by
  constructor
  · exact ⟨_, VoxelCastingBresenhamNan_eq nanVal rs re s,
      bresenhamRun_ne_nil _ _ _ _ _ _⟩
  · exact ⟨_, VoxelCastingDDANan_eq nanVal rs re s, ddaRun_ne_nil _ _ _ _ _ _⟩

theorem claim_C3_witness :
    (∃ p, VoxelCastingBresenhamNan 0 ⟨none, some ⟨0,1⟩, some ⟨0,1⟩⟩
        ⟨some ⟨1,1⟩, some ⟨0,1⟩, some ⟨0,1⟩⟩ ⟨1, 1⟩ = some p ∧ p ≠ []) ∧
      (∃ p, VoxelCastingDDANan 0 ⟨none, some ⟨0,1⟩, some ⟨0,1⟩⟩
        ⟨some ⟨1,1⟩, some ⟨0,1⟩, some ⟨0,1⟩⟩ ⟨1, 1⟩ = some p ∧ p ≠ []) :=
  claim_C3_nan_guard_dead 0 ⟨none, some ⟨0,1⟩, some ⟨0,1⟩⟩
    ⟨some ⟨1,1⟩, some ⟨0,1⟩, some ⟨0,1⟩⟩ ⟨1, 1⟩ (Or.inl rfl)

/-- C4: for every input with step_size > 0 the two integer rasterisers
return a path of length exactly `max(|dx|, |dy|, |dz|) + 1` computed on the
voxel-index deltas. -/
theorem claim_C4_length (rs re : V3f) (s : Fp) (p2 p3 : List V3i) (hs : s.Pos)
    (h2 : VoxelCastingBresenham rs re s = some p2)
    (h3 : VoxelCastingDDA rs re s = some p3) :
    (p2.length : Int) = maxAbsDelta rs re s + 1 ∧
      (p3.length : Int) = maxAbsDelta rs re s + 1 := by
  constructor
  · have he := VoxelCastingBresenham_eq rs re s
    rw [h2] at he
    have hp := Option.some.inj he
    subst hp
    rw [bresenhamRun_length]
    rfl
  · have he := VoxelCastingDDA_eq rs re s
    rw [h3] at he
    have hp := Option.some.inj he
    subst hp
    rw [ddaRun_length]
    rfl

theorem claim_C4_witness :
    Fp.Pos ⟨1, 1⟩ ∧
      (([⟨0,0,0⟩, ⟨1,0,0⟩, ⟨2,1,0⟩] : List V3i).length : Int) =
        maxAbsDelta ⟨⟨0,1⟩, ⟨0,1⟩, ⟨0,1⟩⟩ ⟨⟨2,1⟩, ⟨1,1⟩, ⟨0,1⟩⟩ ⟨1, 1⟩ + 1 :=
  ⟨by decide,
    (claim_C4_length ⟨⟨0,1⟩, ⟨0,1⟩, ⟨0,1⟩⟩ ⟨⟨2,1⟩, ⟨1,1⟩, ⟨0,1⟩⟩ ⟨1, 1⟩
      [⟨0,0,0⟩, ⟨1,0,0⟩, ⟨2,1,0⟩] [⟨0,0,0⟩, ⟨1,1,0⟩, ⟨2,1,0⟩]
      (by decide) (by decide) (by decide)).1⟩

/-- C5: for every zero-length ray with step_size > 0 all three traversal
functions return exactly the one-element path `[VoxelIndex(ray_start)]`
(for any loop fuel, since the parametric variant returns before its
loop). -/
theorem claim_C5_zero_ray (rs re : V3f) (s : Fp) (fuel : Nat) (hs : s.Pos)
    (heq : rs = re) :
    VoxelCasting fuel rs re s = some [voxelIndex rs s] ∧
      VoxelCastingBresenham rs re s = some [voxelIndex rs s] ∧
      VoxelCastingDDA rs re s = some [voxelIndex rs s] := by
  subst heq
  refine ⟨?_, ?_, ?_⟩
  · unfold VoxelCasting
    simp only
    rw [if_pos (show (vcInit rs rs s).start_voxel = (vcInit rs rs s).end_voxel from rfl)]
    rfl
  · rw [VoxelCastingBresenham_eq, bresenhamRun_single]
  · rw [VoxelCastingDDA_eq, ddaRun_single]

theorem claim_C5_witness :
    Fp.Pos ⟨1, 1⟩ ∧
      VoxelCastingBresenham ⟨⟨1,2⟩, ⟨1,2⟩, ⟨1,2⟩⟩ ⟨⟨1,2⟩, ⟨1,2⟩, ⟨1,2⟩⟩ ⟨1, 1⟩ =
        some [voxelIndex ⟨⟨1,2⟩, ⟨1,2⟩, ⟨1,2⟩⟩ ⟨1, 1⟩] :=
  ⟨by decide,
    (claim_C5_zero_ray ⟨⟨1,2⟩, ⟨1,2⟩, ⟨1,2⟩⟩ ⟨⟨1,2⟩, ⟨1,2⟩, ⟨1,2⟩⟩ ⟨1, 1⟩ 5
      (by decide) rfl).2.1⟩

set_option maxRecDepth 1000000 in
/-- C6: a concrete negative-direction ray on which `VoxelCasting` never
terminates: `ray_start = (1/2, 1/2, 0)`, `ray_end = (1, -1, 0)`,
`step_size = 1`.  The pre-loop correction steps the y index at parameter
`t = 0` although the boundary time used for y's `tMax` is exactly 1, so the
loop performs one spurious extra y step, `current_voxel.y` overshoots
`end_voxel.y = -1` and can never come back: `vcLoop` returns `none` for
every fuel. -/
theorem claim_C6_nontermination :
    ∀ fuel : Nat,
      VoxelCasting fuel ⟨⟨1,2⟩, ⟨1,2⟩, ⟨0,1⟩⟩ ⟨⟨1,1⟩, ⟨-1,1⟩, ⟨0,1⟩⟩ ⟨1, 1⟩ = none := by
  intro fuel
  unfold VoxelCasting
  simp only
  rw [if_neg (by decide)]
  have hnone : vcLoop (vcInit ⟨⟨1,2⟩, ⟨1,2⟩, ⟨0,1⟩⟩ ⟨⟨1,1⟩, ⟨-1,1⟩, ⟨0,1⟩⟩ ⟨1, 1⟩).params
      fuel (vcInit ⟨⟨1,2⟩, ⟨1,2⟩, ⟨0,1⟩⟩ ⟨⟨1,1⟩, ⟨-1,1⟩, ⟨0,1⟩⟩ ⟨1, 1⟩).st0 = none := by
    cases fuel with
    | zero => decide
    | succ n =>
      unfold vcLoop
      rw [if_neg (by decide)]
      rw [vcLoop_never _ (by decide) (by decide) n _ (by decide)]
  rw [hnone]

set_option maxRecDepth 1000000 in
/-- C7: on the axis-aligned ray `(0,0,0) → (3,0,0)` with step size 1, all
three traversal functions return exactly
`(0,0,0), (1,0,0), (2,0,0), (3,0,0)` (the parametric variant for every fuel
of at least the 3 loop iterations it needs). -/
theorem claim_C7_scenario_a :
    (∀ fuel : Nat, 3 ≤ fuel →
      VoxelCasting fuel ⟨⟨0,1⟩, ⟨0,1⟩, ⟨0,1⟩⟩ ⟨⟨3,1⟩, ⟨0,1⟩, ⟨0,1⟩⟩ ⟨1, 1⟩ =
        some [⟨0,0,0⟩, ⟨1,0,0⟩, ⟨2,0,0⟩, ⟨3,0,0⟩]) ∧
      VoxelCastingBresenham ⟨⟨0,1⟩, ⟨0,1⟩, ⟨0,1⟩⟩ ⟨⟨3,1⟩, ⟨0,1⟩, ⟨0,1⟩⟩ ⟨1, 1⟩ =
        some [⟨0,0,0⟩, ⟨1,0,0⟩, ⟨2,0,0⟩, ⟨3,0,0⟩] ∧
      VoxelCastingDDA ⟨⟨0,1⟩, ⟨0,1⟩, ⟨0,1⟩⟩ ⟨⟨3,1⟩, ⟨0,1⟩, ⟨0,1⟩⟩ ⟨1, 1⟩ =
        some [⟨0,0,0⟩, ⟨1,0,0⟩, ⟨2,0,0⟩, ⟨3,0,0⟩] := by
  refine ⟨?_, by decide, by decide⟩
  have aux : ∀ k : Nat,
      VoxelCasting (3 + k) ⟨⟨0,1⟩, ⟨0,1⟩, ⟨0,1⟩⟩ ⟨⟨3,1⟩, ⟨0,1⟩, ⟨0,1⟩⟩ ⟨1, 1⟩ =
        some [⟨0,0,0⟩, ⟨1,0,0⟩, ⟨2,0,0⟩, ⟨3,0,0⟩] := by
    intro k
    induction k with
    | zero => decide
    | succ k ih => exact VoxelCasting_mono (3 + k) _ _ _ _ ih
  intro fuel hf
  obtain ⟨k, rfl⟩ : ∃ k, fuel = 3 + k := ⟨fuel - 3, by omega⟩
  exact aux k

set_option maxRecDepth 1000000 in
theorem claim_C7_witness :
    VoxelCasting 3 ⟨⟨0,1⟩, ⟨0,1⟩, ⟨0,1⟩⟩ ⟨⟨3,1⟩, ⟨0,1⟩, ⟨0,1⟩⟩ ⟨1, 1⟩ =
      some [⟨0,0,0⟩, ⟨1,0,0⟩, ⟨2,0,0⟩, ⟨3,0,0⟩] :=
  claim_C7_scenario_a.1 3 (by decide)

/-- C8: on every input with step_size > 0 on which the algorithms terminate
without aborting, no two consecutive path elements are equal, for all three
traversal functions. -/
theorem claim_C8_no_consecutive_dup (rs re : V3f) (s : Fp) (fuel : Nat)
    (p1 p2 p3 : List V3i) (hs : s.Pos)
    (h1 : VoxelCasting fuel rs re s = some p1)
    (h2 : VoxelCastingBresenham rs re s = some p2)
    (h3 : VoxelCastingDDA rs re s = some p3) :
    List.Chain' (fun a b => a ≠ b) p1 ∧ List.Chain' (fun a b => a ≠ b) p2 ∧
      List.Chain' (fun a b => a ≠ b) p3 := by
  refine ⟨?_, ?_, ?_⟩
  · rcases VoxelCasting_cases fuel rs re s p1 h1 with ⟨hse, hl⟩ | ⟨hne, tail, hm, hl⟩
    · subst hl
      simp
    · subst hl
      have hstep : ∀ st : VCState,
          st.cur ≠ (vcStep (vcInit rs re s).params st).cur := by
        intro st
        rcases vcStep_cases (vcInit rs re s).params st with h | h | h <;> rw [h] <;>
          intro he
        · have hc := congrArg V3i.x he
          simp only at hc
          rcases vcInit_step_x rs re s with h4 | h4 <;> rw [h4] at hc <;> omega
        · have hc := congrArg V3i.y he
          simp only at hc
          rcases vcInit_step_y rs re s with h4 | h4 <;> rw [h4] at hc <;> omega
        · have hc := congrArg V3i.z he
          simp only at hc
          rcases vcInit_step_z rs re s with h4 | h4 <;> rw [h4] at hc <;> omega
      have hloop := vcLoop_chain _ (fun a b => a ≠ b) hstep fuel _ tail hm
      rcases vcInit_pre rs re s with ⟨hpre, hcur⟩ | ⟨hpre, hne2, _⟩
      · rw [hpre, List.singleton_append, ← hcur]
        exact hloop
      · rw [hpre, List.cons_append, List.singleton_append, List.chain'_cons]
        exact ⟨fun he => hne2 he.symm, hloop⟩
  · have he := VoxelCastingBresenham_eq rs re s
    rw [h2] at he
    have hp := Option.some.inj he
    subst hp
    exact bresenhamRun_chain_ne _ _ _ _ _ _
  · have he := VoxelCastingDDA_eq rs re s
    rw [h3] at he
    have hp := Option.some.inj he
    subst hp
    exact ddaRun_chain_ne _ _ _ _ _ _

set_option maxRecDepth 1000000 in
theorem claim_C8_witness :
    Fp.Pos ⟨1, 1⟩ ∧
      List.Chain' (fun a b => a ≠ b) ([⟨0,0,0⟩, ⟨1,0,0⟩, ⟨2,0,0⟩, ⟨3,0,0⟩] : List V3i) :=
  ⟨by decide,
    (claim_C8_no_consecutive_dup ⟨⟨0,1⟩, ⟨0,1⟩, ⟨0,1⟩⟩ ⟨⟨3,1⟩, ⟨0,1⟩, ⟨0,1⟩⟩ ⟨1, 1⟩ 3
      [⟨0,0,0⟩, ⟨1,0,0⟩, ⟨2,0,0⟩, ⟨3,0,0⟩] [⟨0,0,0⟩, ⟨1,0,0⟩, ⟨2,0,0⟩, ⟨3,0,0⟩]
      [⟨0,0,0⟩, ⟨1,0,0⟩, ⟨2,0,0⟩, ⟨3,0,0⟩]
      (by decide) (by decide) (by decide) (by decide)).1⟩

/-- C9: on every input with step_size > 0 on which the algorithms terminate
without aborting, consecutive path elements differ by at most 1 on every
axis (Chebyshev distance at most 1), for all three traversal functions. -/
theorem claim_C9_unit_steps (rs re : V3f) (s : Fp) (fuel : Nat)
    (p1 p2 p3 : List V3i) (hs : s.Pos)
    (h1 : VoxelCasting fuel rs re s = some p1)
    (h2 : VoxelCastingBresenham rs re s = some p2)
    (h3 : VoxelCastingDDA rs re s = some p3) :
    List.Chain' chebAdj p1 ∧ List.Chain' chebAdj p2 ∧ List.Chain' chebAdj p3 := by
  refine ⟨?_, ?_, ?_⟩
  · rcases VoxelCasting_cases fuel rs re s p1 h1 with ⟨hse, hl⟩ | ⟨hne, tail, hm, hl⟩
    · subst hl
      simp
    · subst hl
      have hstep : ∀ st : VCState,
          chebAdj st.cur (vcStep (vcInit rs re s).params st).cur := by
        intro st
        rcases vcStep_cases (vcInit rs re s).params st with h | h | h <;> rw [h] <;>
          refine ⟨?_, ?_, ?_⟩ <;> simp only
        · rcases vcInit_step_x rs re s with h4 | h4 <;> rw [h4] <;> simp
        · simp
        · simp
        · simp
        · rcases vcInit_step_y rs re s with h4 | h4 <;> rw [h4] <;> simp
        · simp
        · simp
        · simp
        · rcases vcInit_step_z rs re s with h4 | h4 <;> rw [h4] <;> simp
      have hloop := vcLoop_chain _ chebAdj hstep fuel _ tail hm
      rcases vcInit_pre rs re s with ⟨hpre, hcur⟩ | ⟨hpre, _, hcheb⟩
      · rw [hpre, List.singleton_append, ← hcur]
        exact hloop
      · rw [hpre, List.cons_append, List.singleton_append, List.chain'_cons]
        exact ⟨hcheb, hloop⟩
  · have he := VoxelCastingBresenham_eq rs re s
    rw [h2] at he
    have hp := Option.some.inj he
    subst hp
    exact bresenhamRun_chain_cheb _ _ _ _ _ _
  · have he := VoxelCastingDDA_eq rs re s
    rw [h3] at he
    have hp := Option.some.inj he
    subst hp
    exact ddaRun_chain_cheb _ _ _ _ _ _

set_option maxRecDepth 1000000 in
theorem claim_C9_witness :
    Fp.Pos ⟨1, 1⟩ ∧
      List.Chain' chebAdj ([⟨0,0,0⟩, ⟨1,0,0⟩, ⟨2,0,0⟩, ⟨3,0,0⟩] : List V3i) :=
  ⟨by decide,
    (claim_C9_unit_steps ⟨⟨0,1⟩, ⟨0,1⟩, ⟨0,1⟩⟩ ⟨⟨3,1⟩, ⟨0,1⟩, ⟨0,1⟩⟩ ⟨1, 1⟩ 3
      [⟨0,0,0⟩, ⟨1,0,0⟩, ⟨2,0,0⟩, ⟨3,0,0⟩] [⟨0,0,0⟩, ⟨1,0,0⟩, ⟨2,0,0⟩, ⟨3,0,0⟩]
      [⟨0,0,0⟩, ⟨1,0,0⟩, ⟨2,0,0⟩, ⟨3,0,0⟩]
      (by decide) (by decide) (by decide) (by decide)).1⟩

/-- C10: a concrete input on which `VoxelCastingBresenham` and
`VoxelCastingDDA` return different paths that agree on the first and last
element but differ on an intermediate one: the voxel ray
`(0,0,0) → (2,1,0)`.  Bresenham steps y only when its accumulator goes
negative, DDA steps y already when twice the accumulator reaches
`max_delta`, so the middle voxel is `(1,0,0)` versus `(1,1,0)`. -/
theorem claim_C10_algorithms_differ :
    VoxelCastingBresenham ⟨⟨0,1⟩, ⟨0,1⟩, ⟨0,1⟩⟩ ⟨⟨2,1⟩, ⟨1,1⟩, ⟨0,1⟩⟩ ⟨1, 1⟩ =
        some [⟨0,0,0⟩, ⟨1,0,0⟩, ⟨2,1,0⟩] ∧
      VoxelCastingDDA ⟨⟨0,1⟩, ⟨0,1⟩, ⟨0,1⟩⟩ ⟨⟨2,1⟩, ⟨1,1⟩, ⟨0,1⟩⟩ ⟨1, 1⟩ =
        some [⟨0,0,0⟩, ⟨1,1,0⟩, ⟨2,1,0⟩] ∧
      ([⟨0,0,0⟩, ⟨1,0,0⟩, ⟨2,1,0⟩] : List V3i) ≠ [⟨0,0,0⟩, ⟨1,1,0⟩, ⟨2,1,0⟩] ∧
      ([⟨0,0,0⟩, ⟨1,0,0⟩, ⟨2,1,0⟩] : List V3i).head? =
        ([⟨0,0,0⟩, ⟨1,1,0⟩, ⟨2,1,0⟩] : List V3i).head? ∧
      ([⟨0,0,0⟩, ⟨1,0,0⟩, ⟨2,1,0⟩] : List V3i).getLast? =
        ([⟨0,0,0⟩, ⟨1,1,0⟩, ⟨2,1,0⟩] : List V3i).getLast? := by
  exact ⟨by decide, by decide, by decide, by decide, by decide⟩
